import Mathlib

/-!
Verification development for the mcp-subagents repository.

The definitions below are shallow embeddings of the TypeScript sources:
`src/config.ts` (tool registry / tier classification), the session memory
store (`LocalHybridMemoryStore`), the agent orchestrator
(`AgentOrchestrator.run` and helpers), and the agentic executor
(`AgenticExecutor.execute`).  Machine integers are modelled as `Nat`/`Int`,
JavaScript `JSON.parse` / `JSON.stringify` are modelled by the executable
`Json.parse` / `Json.render` functions below, and the opaque LLM backend is
modelled as an oracle (a function from call index to completion content).
-/

set_option maxRecDepth 16000

namespace Subagents

/-- Models JavaScript `String.prototype.trim` (the whitespace set is
approximated by the common ASCII whitespace plus NBSP and BOM; none of the
claims exercise the exotic Unicode space characters). -/
def jsWhitespaceChar (c : Char) : Bool :=
  c == ' ' || c == '\t' || c == '\n' || c == '\r' || c.toNat == 11 || c.toNat == 12 ||
    c.toNat == 160 || c.toNat == 65279

def jsTrim (s : String) : String :=
  String.mk (((s.toList.dropWhile jsWhitespaceChar).reverse.dropWhile jsWhitespaceChar).reverse)

/-! ## JSON values, rendering and parsing

Models the JavaScript `JSON` builtin as used by the sources:
`JSON.stringify(v, null, 2)` (pretty, two-space indent), `JSON.stringify(v)`
(compact) and `JSON.parse`.  Numbers are kept as a decimal
mantissa/exponent pair; their exact numeric value is irrelevant to every
claim (only zero-ness matters, for JavaScript truthiness). -/

inductive Json where
  | null
  | bool (b : Bool)
  | num (mantissa : Int) (exp10 : Int)
  | str (s : String)
  | arr (elems : List Json)
  | obj (fields : List (String × Json))

def lbrace : Char := Char.ofNat 123

def rbrace : Char := Char.ofNat 125

def hexDigit (n : Nat) : Char :=
  if n < 10 then Char.ofNat (48 + n) else Char.ofNat (87 + n)

def escapeJsonChar (c : Char) : String :=
  if c == '"' then "\\\""
  else if c == '\\' then "\\\\"
  else if c == '\n' then "\\n"
  else if c == '\r' then "\\r"
  else if c == '\t' then "\\t"
  else if c.toNat == 8 then "\\b"
  else if c.toNat == 12 then "\\f"
  else if c.toNat < 32 then
    "\\u00" ++ String.singleton (hexDigit (c.toNat / 16)) ++ String.singleton (hexDigit (c.toNat % 16))
  else String.singleton c

def escapeJsonString (s : String) : String :=
  String.join (s.toList.map escapeJsonChar)

def quoteJson (s : String) : String :=
  "\"" ++ escapeJsonString s ++ "\""

/-- Decimal rendering of the number model.  No claim depends on number
rendering (none of the serialized values in the claims contain numbers);
this is a placeholder faithful enough for integers. -/
def renderNum (m : Int) (e : Int) : String :=
  if e == 0 then toString m else toString m ++ "e" ++ toString e

def spaces (n : Nat) : String :=
  String.mk (List.replicate n ' ')

mutual

/-- Models `JSON.stringify(j, null, 2)` when called with indent `ind`
being the column of the value's closing bracket. -/
def render (ind : Nat) : Json → String
  | .null => "null"
  | .bool b => if b then "true" else "false"
  | .num m e => renderNum m e
  | .str s => quoteJson s
  | .arr [] => "[]"
  | .arr (x :: xs) =>
    "[\n" ++ String.intercalate ",\n" (renderArrayItems (ind + 2) (x :: xs)) ++ "\n" ++ spaces ind ++ "]"
  | .obj [] => "\x7b\x7d"
  | .obj (f :: fs) =>
    "\x7b\n" ++ String.intercalate ",\n" (renderObjItems (ind + 2) (f :: fs)) ++ "\n" ++ spaces ind ++ "\x7d"

def renderArrayItems (ind : Nat) : List Json → List String
  | [] => []
  | x :: xs => (spaces ind ++ render ind x) :: renderArrayItems ind xs

def renderObjItems (ind : Nat) : List (String × Json) → List String
  | [] => []
  | f :: fs => (spaces ind ++ quoteJson f.1 ++ ": " ++ render ind f.2) :: renderObjItems ind fs

end

/-- Models `JSON.stringify(j, null, 2)`. -/
def Json.render (j : Json) : String := Subagents.render 0 j

mutual

/-- Models compact `JSON.stringify(j)` (no indent argument). -/
def renderC : Json → String
  | .null => "null"
  | .bool b => if b then "true" else "false"
  | .num m e => renderNum m e
  | .str s => quoteJson s
  | .arr xs => "[" ++ String.intercalate "," (renderCList xs) ++ "]"
  | .obj fs => "\x7b" ++ String.intercalate "," (renderCObj fs) ++ "\x7d"

def renderCList : List Json → List String
  | [] => []
  | x :: xs => renderC x :: renderCList xs

def renderCObj : List (String × Json) → List String
  | [] => []
  | f :: fs => (quoteJson f.1 ++ ":" ++ renderC f.2) :: renderCObj fs

end

def Json.renderCompact (j : Json) : String := Subagents.renderC j

def jsonWsChar (c : Char) : Bool :=
  c == ' ' || c == '\t' || c == '\n' || c == '\r'

def skipWs : List Char → List Char
  | [] => []
  | c :: cs => if jsonWsChar c then skipWs cs else c :: cs

def hexVal (c : Char) : Option Nat :=
  if c.toNat ≥ 48 && c.toNat ≤ 57 then some (c.toNat - 48)
  else if c.toNat ≥ 97 && c.toNat ≤ 102 then some (c.toNat - 87)
  else if c.toNat ≥ 65 && c.toNat ≤ 70 then some (c.toNat - 55)
  else none

/-- Models the body of a JSON string literal (after the opening quote).
A `\uXXXX` escape is mapped through `Char.ofNat`; surrogate halves (which
JavaScript would keep as raw UTF-16 code units) degrade to NUL here — an
edge of the model not exercised by any claim. -/
def parseStringBody : Nat → List Char → List Char → Option (String × List Char)
  | 0, _, _ => none
  | _ + 1, _, [] => none
  | fuel + 1, acc, c :: cs =>
    if c == '"' then some (String.mk acc.reverse, cs)
    else if c == '\\' then
      match cs with
      | [] => none
      | e :: cs2 =>
        if e == '"' then parseStringBody fuel ('"' :: acc) cs2
        else if e == '\\' then parseStringBody fuel ('\\' :: acc) cs2
        else if e == '/' then parseStringBody fuel ('/' :: acc) cs2
        else if e == 'b' then parseStringBody fuel (Char.ofNat 8 :: acc) cs2
        else if e == 'f' then parseStringBody fuel (Char.ofNat 12 :: acc) cs2
        else if e == 'n' then parseStringBody fuel ('\n' :: acc) cs2
        else if e == 'r' then parseStringBody fuel ('\r' :: acc) cs2
        else if e == 't' then parseStringBody fuel ('\t' :: acc) cs2
        else if e == 'u' then
          match cs2 with
          | h1 :: h2 :: h3 :: h4 :: cs3 =>
            match hexVal h1, hexVal h2, hexVal h3, hexVal h4 with
            | some a, some b, some c2, some d =>
              parseStringBody fuel (Char.ofNat (a * 4096 + b * 256 + c2 * 16 + d) :: acc) cs3
            | _, _, _, _ => none
          | _ => none
        else none
    else if c.toNat < 32 then none
    else parseStringBody fuel (c :: acc) cs

def digitsToNat (ds : List Char) : Nat :=
  ds.foldl (fun acc c => acc * 10 + (c.toNat - 48)) 0

/-- Models JSON number syntax: optional minus, integer part without leading
zeros, optional fraction, optional exponent.  Returns mantissa and a
power-of-ten exponent. -/
def parseNumber (l : List Char) : Option (Int × Int × List Char) := do
  let (neg, l1) :=
    match l with
    | c :: cs => if c == '-' then (true, cs) else (false, l)
    | [] => (false, l)
  let (intDigits, l2) ←
    match l1 with
    | c :: cs =>
      if c == '0' then some ([c], cs)
      else if c.isDigit then
        let ds := cs.takeWhile Char.isDigit
        some (c :: ds, cs.drop ds.length)
      else none
    | [] => none
  let (fracDigits, l3) ←
    match l2 with
    | c :: cs =>
      if c == '.' then
        let ds := cs.takeWhile Char.isDigit
        if ds.isEmpty then none else some (ds, cs.drop ds.length)
      else some ([], l2)
    | [] => some ([], l2)
  let (expVal, l4) ←
    match l3 with
    | c :: cs =>
      if c == 'e' || c == 'E' then
        let (esign, cs1) :=
          match cs with
          | d :: ds => if d == '-' then (true, ds) else if d == '+' then (false, ds) else (false, cs)
          | [] => (false, cs)
        let ds := cs1.takeWhile Char.isDigit
        if ds.isEmpty then none
        else
          let v : Int := Int.ofNat (digitsToNat ds)
          some (if esign then -v else v, cs1.drop ds.length)
      else some ((0 : Int), l3)
    | [] => some ((0 : Int), l3)
  let mantNat := digitsToNat (intDigits ++ fracDigits)
  let mant : Int := if neg then -(Int.ofNat mantNat) else Int.ofNat mantNat
  pure (mant, expVal - Int.ofNat fracDigits.length, l4)

def expectChars : List Char → List Char → Option (List Char)
  | [], l => some l
  | e :: es, c :: cs => if e == c then expectChars es cs else none
  | _ :: _, [] => none

def upsertField (fields : List (String × Json)) (k : String) (v : Json) : List (String × Json) :=
  if fields.any (fun kv => kv.1 == k) then
    fields.map (fun kv => if kv.1 == k then (k, v) else kv)
  else fields ++ [(k, v)]

mutual

/-- Models `JSON.parse` on one value; fuel-indexed recursive descent. -/
def parseValue : Nat → List Char → Option (Json × List Char)
  | 0, _ => none
  | fuel + 1, l =>
    match skipWs l with
    | [] => none
    | c :: cs =>
      if c == 'n' then (expectChars ['u', 'l', 'l'] cs).map (fun r => (Json.null, r))
      else if c == 't' then (expectChars ['r', 'u', 'e'] cs).map (fun r => (Json.bool true, r))
      else if c == 'f' then (expectChars ['a', 'l', 's', 'e'] cs).map (fun r => (Json.bool false, r))
      else if c == '"' then
        (parseStringBody (cs.length + 1) [] cs).map (fun p => (Json.str p.1, p.2))
      else if c == '-' || c.isDigit then
        (parseNumber (c :: cs)).map (fun p => (Json.num p.1 p.2.1, p.2.2))
      else if c == '[' then
        match skipWs cs with
        | d :: ds => if d == ']' then some (Json.arr [], ds) else parseElems fuel [] cs
        | [] => none
      else if c == lbrace then
        match skipWs cs with
        | d :: ds => if d == rbrace then some (Json.obj [], ds) else parseMembers fuel [] cs
        | [] => none
      else none

def parseElems : Nat → List Json → List Char → Option (Json × List Char)
  | 0, _, _ => none
  | fuel + 1, acc, l => do
    let (v, rest) ← parseValue fuel l
    match skipWs rest with
    | c :: cs =>
      if c == ',' then parseElems fuel (acc ++ [v]) cs
      else if c == ']' then some (Json.arr (acc ++ [v]), cs)
      else none
    | [] => none

def parseMembers : Nat → List (String × Json) → List Char → Option (Json × List Char)
  | 0, _, _ => none
  | fuel + 1, acc, l =>
    match skipWs l with
    | c :: cs =>
      if c == '"' then do
        let (k, rest) ← parseStringBody (cs.length + 1) [] cs
        match skipWs rest with
        | d :: ds =>
          if d == ':' then do
            let (v, rest2) ← parseValue fuel ds
            match skipWs rest2 with
            | e :: es =>
              if e == ',' then parseMembers fuel (upsertField acc k v) es
              else if e == rbrace then some (Json.obj (upsertField acc k v), es)
              else none
            | [] => none
          else none
        | [] => none
      else none
    | [] => none

end

/-- Models `JSON.parse`: parse one value surrounded by optional whitespace;
any trailing non-whitespace is a syntax error. -/
def Json.parse (s : String) : Option Json :=
  let l := s.toList
  match parseValue (2 * l.length + 8) l with
  | some (j, rest) => if (skipWs rest).isEmpty then some j else none
  | none => none

/-- Models JavaScript truthiness of a parsed JSON value (used by
`safeParseJson` callers through `if (parsedJson)`). -/
def jsTruthy : Json → Bool
  | .null => false
  | .bool b => b
  | .num m _ => m != 0
  | .str s => !s.isEmpty
  | .arr _ => true
  | .obj _ => true

/-! ## Roles and tool access levels (src/types.ts) -/

inductive AgentRole where
  | planner
  | code
  | analysis
  | research
  | review
  | test
deriving DecidableEq

inductive ToolAccessLevel where
  | none
  | read
  | write
  | execute
  | admin
deriving DecidableEq

/-- Models `TOOL_ACCESS_LEVEL_ORDER` from src/types.ts. -/
def TOOL_ACCESS_LEVEL_ORDER : ToolAccessLevel → Nat
  | .none => 0
  | .read => 1
  | .write => 2
  | .execute => 3
  | .admin => 4

/-- Models `ROLE_TOOL_PERMISSIONS` from src/types.ts. -/
def ROLE_TOOL_PERMISSIONS : AgentRole → List String
  | .planner => []
  | .code => ["smart-io:read_file", "smart-io:edit_file", "smart-io:create_file", "smart-io:run_shell"]
  | .analysis =>
    ["smart-io:read_file", "smart-io:grep_file", "smart-io:read_log", "smart-io:list_processes",
     "smart-io:list_directory_tree", "smart-io:find_files", "smart-io:run_shell",
     "smart-io:run_powershell"]
  | .research =>
    ["*:web_search", "*:web_fetch", "smart-io:read_file", "smart-io:grep_file", "keeper-memory*:*"]
  | .review =>
    ["smart-io:read_file", "smart-io:grep_file", "smart-io:syntax_check", "smart-io:check_git_status"]
  | .test => ["smart-io:run_shell", "smart-io:read_file", "smart-io:create_file", "smart-io:read_log"]

/-- Models `ROLE_TOOL_ACCESS_LEVELS` from src/types.ts. -/
def ROLE_TOOL_ACCESS_LEVELS : AgentRole → ToolAccessLevel
  | .planner => .none
  | .analysis => .execute
  | .research => .read
  | .review => .read
  | .code => .execute
  | .test => .execute

/-- Models `NON_DELEGATING_ROLES` from src/types.ts. -/
def NON_DELEGATING_ROLES : List AgentRole := [.code, .analysis, .research, .review, .test]

/-- Models `ROLES` from src/agents/orchestrator.ts. -/
def ROLES : List AgentRole := [.planner, .code, .analysis, .research, .review, .test]

/-! ## Glob matching and tool tier classification (src/mcp/toolRegistry.ts) -/

/-- Models the anchored regular expression built by `globToRegExp`: every
character other than `*` is literal (the source escapes regex
metacharacters), and `*` (compiled to `.*`) matches any run of
characters, i.e. the rest of the pattern matches some suffix. -/
def globMatch : List Char → List Char → Bool
  | [], s => s.isEmpty
  | p :: ps, s =>
    if p == '*' then s.tails.any (fun suffix => globMatch ps suffix)
    else
      match s with
      | [] => false
      | c :: cs => p == c && globMatch ps cs

/-- Models `matchesTool`: exact match first, then glob when the pattern
contains a `*`. -/
def matchesTool (patterns : List String) (toolName : String) : Bool :=
  patterns.any fun pattern =>
    pattern == toolName ||
      (pattern.toList.contains '*' && globMatch pattern.toList toolName.toList)

/-- Models `TOOL_LEVEL_PATTERNS` from src/mcp/toolRegistry.ts. -/
def TOOL_LEVEL_PATTERNS : ToolAccessLevel → List String
  | .none => []
  | .read =>
    ["*:read_*", "*:list_*", "*:find_*", "*:grep_*", "*:search_*", "*:check_*", "*:status*",
     "*:syntax_check", "*:session_init", "*:session_log", "*:env_*", "*:recent_*", "*:read_log",
     "*:tail_*", "*:web_search*", "*:web_fetch*"]
  | .write => ["*:create_*", "*:edit_*", "*:write_*", "*:update_*", "*:save_*", "*:apply_*"]
  | .execute => ["*:run_*", "*:shell*", "*:powershell*", "*:execute*", "*:start_*", "*:wait_*"]
  | .admin => ["*:delete_*", "*:remove_*", "*:kill_*", "*:reset_*", "*:undo_*", "*:revert_*"]

/-- A discovered tool as held by the registry: canonical name plus the MCP
hint flags read by `classifyToolAccess` (absent hints are falsy, modelled
as `false`). -/
structure RegisteredTool where
  name : String
  destructiveHint : Bool := false
  readOnlyHint : Bool := false
  openWorldHint : Bool := false
deriving DecidableEq

/-- Models `classifyToolAccess` from src/mcp/toolRegistry.ts: explicit
hints first, then the tier pattern sets in priority order
admin > execute > write > read, defaulting to `write`. -/
def classifyToolAccess (toolName : String) (tool : RegisteredTool) : ToolAccessLevel :=
  if tool.destructiveHint then .admin
  else if tool.readOnlyHint then .read
  else if tool.openWorldHint then .execute
  else if matchesTool (TOOL_LEVEL_PATTERNS .admin) toolName then .admin
  else if matchesTool (TOOL_LEVEL_PATTERNS .execute) toolName then .execute
  else if matchesTool (TOOL_LEVEL_PATTERNS .write) toolName then .write
  else if matchesTool (TOOL_LEVEL_PATTERNS .read) toolName then .read
  else .write

/-- Models the registry's `accessOverrides` field (per-role ceiling
override, allow patterns, deny patterns). -/
structure AccessOverrides where
  roleLevels : AgentRole → Option ToolAccessLevel
  allow : AgentRole → List String
  deny : AgentRole → List String

/-- Models `getEffectiveAccessLevel`: the role-level override if set, else
the configured role default. -/
def getEffectiveAccessLevel (roleLevels : AgentRole → ToolAccessLevel) (ov : AccessOverrides)
    (role : AgentRole) : ToolAccessLevel :=
  (ov.roleLevels role).getD (roleLevels role)

/-- Models `Map.set` keyed by canonical tool name: replace in place if the
key exists, else append. -/
def upsertTool (m : List RegisteredTool) (t : RegisteredTool) : List RegisteredTool :=
  if m.any (fun u => u.name == t.name) then
    m.map (fun u => if u.name == t.name then t else u)
  else m ++ [t]

/-- Models `ToolRegistry.getToolsForRole`.  `tools` is the registry's
discovered-tool map in insertion order; `roleLevels` is the configured
per-role ceiling table.  Note: the base list is filtered by tier, the
allow-override union is not. -/
def getToolsForRole (tools : List RegisteredTool) (roleLevels : AgentRole → ToolAccessLevel)
    (ov : AccessOverrides) (role : AgentRole) : List RegisteredTool :=
  let patterns := ROLE_TOOL_PERMISSIONS role
  if patterns.isEmpty then []
  else
    let maxLevel := getEffectiveAccessLevel roleLevels ov role
    let maxLevelOrder := TOOL_ACCESS_LEVEL_ORDER maxLevel
    let baseTools := tools.filter fun tool =>
      matchesTool patterns tool.name &&
        TOOL_ACCESS_LEVEL_ORDER (classifyToolAccess tool.name tool) ≤ maxLevelOrder
    let allowPatterns := ov.allow role
    let denyPatterns := ov.deny role
    let isDenied := fun (toolName : String) =>
      !denyPatterns.isEmpty && matchesTool denyPatterns toolName
    let isAllowed := fun (toolName : String) =>
      !allowPatterns.isEmpty && matchesTool allowPatterns toolName
    let merged := baseTools.foldl
      (fun m tool => if !isDenied tool.name then upsertTool m tool else m) []
    let merged :=
      if !allowPatterns.isEmpty then
        tools.foldl
          (fun m tool => if isAllowed tool.name && !isDenied tool.name then upsertTool m tool else m)
          merged
      else merged
    merged

/-! ## Session store (src/memory/localMemoryStore.ts) -/

/-- Models `normalizeSessionId`: trim, replace every character outside
`[a-zA-Z0-9_-]` with an underscore, and fall back to `"default"` when the
result is empty. -/
def sessionSafeChar (c : Char) : Bool :=
  c.isAlphanum || c == '_' || c == '-'

def normalizeSessionId (sessionId : String) : String :=
  let normalized :=
    String.mk ((jsTrim sessionId).toList.map (fun c => if sessionSafeChar c then c else '_'))
  if normalized.length > 0 then normalized else "default"

/-- Models `LocalHybridMemoryStore.sessionPath`: `baseDir/<safe>.json`. -/
def sessionPath (baseDir sessionId : String) : String :=
  baseDir ++ "/" ++ normalizeSessionId sessionId ++ ".json"

/-- A session log entry (src/types.ts `SessionLogEntry`).  `meta` models
the optional metadata object projected to its `type` field, the only part
the store inspects; entries used in the theorems carry either no metadata
or exactly a `type` tag, so the serialization below is exact for them. -/
structure Entry where
  role : String
  message : String
  timestamp : String
  meta : Option String
deriving DecidableEq

def Entry.toJson (e : Entry) : Json :=
  Json.obj
    ([("role", Json.str e.role), ("message", Json.str e.message),
      ("timestamp", Json.str e.timestamp)] ++
      match e.meta with
      | Option.none => []
      | some t => [("meta", Json.obj [("type", Json.str t)])])

/-- Models `JSON.stringify(entries, null, 2)` for a session log. -/
def serializeEntries (entries : List Entry) : String :=
  Json.render (Json.arr (entries.map Entry.toJson))

/-- Models `Buffer.byteLength(content, 'utf8')` of the serialized log. -/
def logSizeBytes (entries : List Entry) : Nat :=
  (serializeEntries entries).utf8ByteSize

/-- Models the check `existing[0]?.meta?.type !== 'truncation_marker'`
(negated). -/
def isTruncationMarker (e : Entry) : Bool :=
  e.meta == some "truncation_marker"

/-- Models the synthetic truncation-marker entry inserted by `append`.
`removedTimestamp` is the evicted entry's timestamp; `now` models
`new Date().toISOString()` (a fixed-length ISO-8601 string). -/
def truncationMarker (removedTimestamp now : String) : Entry :=
  { role := "system"
    message := "Session log truncated. Removed entries older than " ++ removedTimestamp ++ "."
    timestamp := now
    meta := some "truncation_marker" }

/-- One iteration of the eviction loop body in
`LocalHybridMemoryStore.append`: shift the oldest entry, then unshift a
truncation marker unless the new head already is one. -/
def truncateStep (now : String) : List Entry → List Entry
  | [] => []
  | removed :: rest =>
    match rest with
    | first :: _ =>
      if isTruncationMarker first then rest
      else truncationMarker removed.timestamp now :: rest
    | [] => truncationMarker removed.timestamp now :: rest

/-- The `while` eviction loop of `append`, made total with explicit fuel:
`none` means the loop has not reached its exit condition within `fuel`
iterations (the source loop would still be running). -/
def truncateLoop (maxLogBytes : Nat) (now : String) : Nat → List Entry → Option (List Entry)
  | 0, entries =>
    if logSizeBytes entries > maxLogBytes && entries.length > 1 then none else some entries
  | fuel + 1, entries =>
    if logSizeBytes entries > maxLogBytes && entries.length > 1 then
      truncateLoop maxLogBytes now fuel (truncateStep now entries)
    else some entries

/-- Models `append`'s in-memory effect: push the new entry, then run the
eviction loop; the result (when the loop terminates) is what gets written
back to the session file. -/
def appendWithLimit (maxLogBytes : Nat) (now : String) (fuel : Nat) (existing : List Entry)
    (entry : Entry) : Option (List Entry) :=
  truncateLoop maxLogBytes now fuel (existing ++ [entry])

/-- Outcome of `LocalHybridMemoryStore.readInternal`: the entries returned
to the caller, and whether the on-disk file was preserved by renaming it
to the timestamped `.corrupted.<ts>` side-name. -/
structure ReadOutcome where
  entries : List Json
  backedUp : Bool

/-- Models `readInternal` as a function of the session file content
(`none` models ENOENT).  A parse failure (SyntaxError) renames the file to
a timestamped backup and returns the empty log; a payload that parses but
is not an array returns the empty log without any backup; an array is
returned as-is (elements are not validated). -/
def readInternal (fileContent : Option String) : ReadOutcome :=
  match fileContent with
  | Option.none => { entries := [], backedUp := false }
  | some content =>
    match Json.parse content with
    | Option.none => { entries := [], backedUp := true }
    | some j =>
      match j with
      | .arr es => { entries := es, backedUp := false }
      | _ => { entries := [], backedUp := false }

/-! ## Agent response schema (src/agents/orchestrator.ts `AgentResponseSchema`) -/

structure Delegation where
  role : AgentRole
  objective : String
  rationale : Option String := Option.none
deriving DecidableEq

structure AgentResponse where
  summary : String
  rationale : Option String := Option.none
  notes : Option (List String) := Option.none
  risks : Option (List String) := Option.none
  delegations : Option (List Delegation) := Option.none
deriving DecidableEq

/-- Models JavaScript property access `obj.key` on a parsed JSON value
(`undefined`, i.e. `none`, for missing keys and for non-objects). -/
def jsonFieldGet (j : Json) (key : String) : Option Json :=
  match j with
  | .obj fields => (fields.find? (fun kv => kv.1 == key)).map (fun kv => kv.2)
  | _ => Option.none

def asString : Json → Option String
  | .str s => some s
  | _ => Option.none

def asStringList : Json → Option (List String)
  | .arr es => es.mapM asString
  | _ => Option.none

/-- Models the `z.union` of the six role literals. -/
def parseRoleLiteral (s : String) : Option AgentRole :=
  if s == "planner" then some .planner
  else if s == "code" then some .code
  else if s == "analysis" then some .analysis
  else if s == "research" then some .research
  else if s == "review" then some .review
  else if s == "test" then some .test
  else Option.none

/-- Models a `z...optional()` field: absent is fine, present must
validate.  (JSON has no `undefined`; a JSON `null` fails the inner
validator, as in zod.) -/
def optField {α : Type} (j : Json) (key : String) (f : Json → Option α) : Option (Option α) :=
  match jsonFieldGet j key with
  | Option.none => some Option.none
  | some v => (f v).map some

/-- Models the delegation element schema
`z.object({role: union of literals, objective: string, rationale: string.optional})`. -/
def parseDelegationObj (j : Json) : Option Delegation :=
  match j with
  | .obj _ => do
    let roleStr ← jsonFieldGet j "role" >>= asString
    let role ← parseRoleLiteral roleStr
    let objective ← jsonFieldGet j "objective" >>= asString
    let rationale ← optField j "rationale" asString
    pure { role := role, objective := objective, rationale := rationale }
  | _ => Option.none

/-- Models `AgentResponseSchema.safeParse`: the value must be a plain
object with a string `summary`; other fields are optional but
type-checked; unknown keys are stripped. -/
def schemaParse (j : Json) : Option AgentResponse :=
  match j with
  | .obj _ => do
    let summary ← jsonFieldGet j "summary" >>= asString
    let rationale ← optField j "rationale" asString
    let notes ← optField j "notes" asStringList
    let risks ← optField j "risks" asStringList
    let delegations ← optField j "delegations" fun v =>
      match v with
      | .arr es => es.mapM parseDelegationObj
      | _ => Option.none
    pure { summary := summary, rationale := rationale, notes := notes, risks := risks,
           delegations := delegations }
  | _ => Option.none

/-! ## Response parsing (src/agents/orchestrator.ts `parseAgentResponse`) -/

structure ParseResult where
  valid : Bool
  data : AgentResponse
deriving DecidableEq

def invalidJsonNote : String := "Model response was not valid JSON; returning raw content."

def validationErrorsNote : String :=
  "Model response had validation errors; some fields may be missing."

def invalidJsonFallback (raw : String) : AgentResponse :=
  { summary := raw, rationale := Option.none, notes := some [invalidJsonNote],
    risks := Option.none, delegations := some [] }

/-- Models `parseAgentResponse` (the orchestrator version returning a
validity flag).  `safeParseJson` returning a falsy parsed value (`null`,
`0`, `false`, `""`) takes the invalid-JSON fallback, mirroring the
`if (parsedJson)` truthiness check. -/
def parseAgentResponse (raw : String) : ParseResult :=
  match Json.parse raw with
  | some j =>
    if jsTruthy j then
      match schemaParse j with
      | some data => { valid := true, data := data }
      | Option.none =>
        { valid := false
          data := { summary := ((jsonFieldGet j "summary").bind asString).getD raw
                    rationale := Option.none, notes := some [validationErrorsNote]
                    risks := Option.none, delegations := some [] } }
    else { valid := false, data := invalidJsonFallback raw }
  | Option.none => { valid := false, data := invalidJsonFallback raw }

/-! ## Orchestrator (src/agents/orchestrator.ts `AgentOrchestrator`)

The model covers the orchestrator as constructed without a tool registry
or agentic executor (the configuration exercised by the repository's own
`tests/gremlin-test.ts`): `availableTools` is empty, `canUseTools` is
false, so `shouldUseTools`, `toolsUnavailable`, `toolAccessBlocked` and
`toolAccessSkipped` are all false and only the `forceToolUseNoTools`
branch of the raw-response selection can fire.  The LLM backend is an
oracle from call index to completion content; token usage and prompt text
shape only the oracle's input and are absorbed by it. -/

structure AgentRequest where
  role : AgentRole
  objective : String
  context : Option String := Option.none
  sessionId : Option String := Option.none
  depth : Option Nat := Option.none
  maxDepth : Option Nat := Option.none
  maxDelegations : Option Nat := Option.none

inductive AgentResult where
  | mk (role : AgentRole) (summary : String) (rationale : Option String)
      (notes : Option (List String)) (risks : Option (List String))
      (delegations : List Delegation) (children : List AgentResult) (raw : String)

def AgentResult.role : AgentResult → AgentRole
  | .mk r _ _ _ _ _ _ _ => r

def AgentResult.summary : AgentResult → String
  | .mk _ s _ _ _ _ _ _ => s

def AgentResult.rationale : AgentResult → Option String
  | .mk _ _ r _ _ _ _ _ => r

def AgentResult.notes : AgentResult → Option (List String)
  | .mk _ _ _ n _ _ _ _ => n

def AgentResult.risks : AgentResult → Option (List String)
  | .mk _ _ _ _ r _ _ _ => r

def AgentResult.delegations : AgentResult → List Delegation
  | .mk _ _ _ _ _ d _ _ => d

def AgentResult.children : AgentResult → List AgentResult
  | .mk _ _ _ _ _ _ c _ => c

def AgentResult.raw : AgentResult → String
  | .mk _ _ _ _ _ _ _ r => r

mutual

/-- Number of Step Results in a result tree (the node itself plus all
descendants). -/
def countNodes : AgentResult → Nat
  | .mk _ _ _ _ _ _ children _ => 1 + countNodesList children

def countNodesList : List AgentResult → Nat
  | [] => 0
  | r :: rs => countNodes r + countNodesList rs

end

mutual

/-- All execution depths in a result tree, given the depth the root step
ran at: each child step runs at depth exactly one greater than its parent
(mirroring `depth: depth + 1` in the child recursion of `run`). -/
def depthsOf (d : Nat) : AgentResult → List Nat
  | .mk _ _ _ _ _ _ children _ => d :: depthsOfList (d + 1) children

def depthsOfList (d : Nat) : List AgentResult → List Nat
  | [] => []
  | r :: rs => depthsOf d r ++ depthsOfList d rs

end

mutual

/-- Every node of the result tree has at most `m` children. -/
def fanOutOk (m : Nat) : AgentResult → Bool
  | .mk _ _ _ _ _ _ children _ => children.length ≤ m && fanOutOkList m children

def fanOutOkList (m : Nat) : List AgentResult → Bool
  | [] => true
  | r :: rs => fanOutOk m r && fanOutOkList m rs

end

structure OrchConfig where
  /-- `opts.maxAgentsPerSession ?? 100`. -/
  maxAgentsPerSession : Nat
  /-- `defaults.maxDepth`. -/
  defaultMaxDepth : Nat
  /-- `CONFIG.maxDelegationsPerAgent` (default 2). -/
  maxDelegationsPerAgent : Nat

/-- Mutable process state threaded through `run`: the per-session agent
counters (`sessionAgentCounts`, totalized by `get(...) ?? 0`), the session
store content (keyed by normalized session id; `append` is modelled as a
plain push, i.e. logs below the byte ceiling — the eviction loop is
modelled separately for the store claims), and the number of LLM calls
made so far (the oracle index). -/
structure OrchSt where
  counts : String → Nat
  files : String → Option (List Entry)
  llmCalls : Nat

def countOf (st : OrchSt) (sessionId : String) : Nat :=
  st.counts sessionId

def setCount (st : OrchSt) (sessionId : String) (n : Nat) : OrchSt :=
  { st with counts := fun k => if k == sessionId then n else st.counts k }

/-- Models `resetSessionAgentCount` (a `Map.delete`; a deleted key reads
back as `?? 0`). -/
def resetSessionAgentCount (st : OrchSt) (sessionId : String) : OrchSt :=
  { st with counts := fun k => if k == sessionId then 0 else st.counts k }

/-- Models `memory.read` for an intact store: entries of the session file,
empty if absent. -/
def readMem (st : OrchSt) (sessionId : String) : List Entry :=
  (st.files (normalizeSessionId sessionId)).getD []

def appendMemEntry (st : OrchSt) (sessionId : String) (e : Entry) : OrchSt :=
  { st with
    files := fun k =>
      if k == normalizeSessionId sessionId then some (readMem st sessionId ++ [e])
      else st.files k }

/-- Models `memory.clear`: delete the session file. -/
def clearMem (st : OrchSt) (sessionId : String) : OrchSt :=
  { st with
    files := fun k => if k == normalizeSessionId sessionId then Option.none else st.files k }

/-- Fixed stand-in for `new Date().toISOString()`; timestamps never
influence control flow in the orchestrator. -/
def modelNow : String := "2025-01-01T00:00:00.000Z"

def roleName : AgentRole → String
  | .planner => "planner"
  | .code => "code"
  | .analysis => "analysis"
  | .research => "research"
  | .review => "review"
  | .test => "test"

/-- The request-log entry appended at the start of `run` (metadata
projected to its `type` tag). -/
def requestEntry (role : AgentRole) (objective : String) : Entry :=
  { role := roleName role, message := objective, timestamp := modelNow, meta := some "request" }

/-- The response-log entry appended at the end of `run`. -/
def responseEntry (summary : String) : Entry :=
  { role := "assistant", message := summary, timestamp := modelNow, meta := some "response" }

/-- Models the thrown `Agent limit exceeded` error message. -/
def agentLimitMsg (sessionId : String) (currentCount maxAgents : Nat) : String :=
  s!"Agent limit exceeded: session \"{sessionId}\" has spawned {currentCount} agents (max: {maxAgents}). This prevents exponential agent spawning."

/-- Models lines 396-403 of the orchestrator: reject when the session's
agent counter is at or above the ceiling, otherwise increment it. -/
def checkAndIncrementAgentCount (st : OrchSt) (sessionId : String) (maxAgents : Nat) :
    Except String OrchSt :=
  let currentCount := countOf st sessionId
  if currentCount ≥ maxAgents then Except.error (agentLimitMsg sessionId currentCount maxAgents)
  else Except.ok (setCount st sessionId (currentCount + 1))

/-- Models the JavaScript word-character class `\w`. -/
def isWordChar (c : Char) : Bool :=
  c.isAlphanum || c == '_'

def useToolsPat : List Char := ['u', 's', 'e', ' ', 't', 'o', 'o', 'l', 's']

def stripPrefixCI : List Char → List Char → Option (List Char)
  | [], l => some l
  | _ :: _, [] => Option.none
  | p :: ps, c :: cs => if p == c.toLower then stripPrefixCI ps cs else Option.none

def testUseToolsAux : Bool → List Char → Bool
  | _, [] => false
  | prevIsWord, c :: cs =>
    (!prevIsWord &&
      (match stripPrefixCI useToolsPat (c :: cs) with
       | some [] => true
       | some (r :: _) => !isWordChar r
       | Option.none => false)) ||
    testUseToolsAux (isWordChar c) cs

/-- Models the regular expression test `/\buse tools\b/i.test(objective)`. -/
def testUseTools (s : String) : Bool :=
  testUseToolsAux false s.toList

/-- Models the synthesized raw answer on the `forceToolUseNoTools` branch
with no registry and hence no discovery error (plain `JSON.stringify`,
compact). -/
def toolNotReadyRaw : String :=
  Json.renderCompact (Json.obj
    [("summary", Json.str "Tool access not ready: no tools available for this role."),
     ("notes", Json.arr [Json.str "Retry once MCP tool discovery completes."]),
     ("delegations", Json.arr [])])

/-- Models the truncation note appended when delegations were dropped. -/
def truncationNote (truncatedCount maxDelegations : Nat) : String :=
  s!"{truncatedCount} delegation(s) skipped due to limit (max {maxDelegations} per agent)."

/-- Models `prepareDelegations` (orchestrator lines 614-632): empty when
delegation is not allowed or the next depth reaches `maxDepth`, otherwise
the role-valid delegations truncated to `maxDelegations`, together with
the number dropped. -/
def prepareDelegations (delegations : List Delegation) (depth maxDepth maxDelegations : Nat)
    (allowDelegation : Bool) : List Delegation × Nat :=
  if !allowDelegation || depth + 1 ≥ maxDepth then ([], delegations.length)
  else
    let valid := delegations.filter (fun d => ROLES.contains d.role)
    let truncated := valid.take maxDelegations
    (truncated, valid.length - truncated.length)

/-- Models `retryWithSchemaFix`: one more LLM call; succeed only when the
content is non-blank and revalidates. -/
def retryWithSchemaFix (llm : Nat → String) (st : OrchSt) : Option String × OrchSt :=
  let content := llm st.llmCalls
  let st1 := { st with llmCalls := st.llmCalls + 1 }
  if (jsTrim content).length > 0 && (parseAgentResponse content).valid then (some content, st1)
  else (Option.none, st1)

def childRequest (d : Delegation) (ctx : Option String) (sessionId : String)
    (childDepth maxDepth maxDelegations : Nat) : AgentRequest :=
  { role := d.role, objective := d.objective, context := ctx, sessionId := some sessionId,
    depth := some childDepth, maxDepth := some maxDepth, maxDelegations := some maxDelegations }

/-- Models the sequential child-execution loop of `run`: each child fully
completes before the next sibling; a child's error aborts the remaining
siblings and propagates. -/
def runListWith (childRun : OrchSt → AgentRequest → Except String AgentResult × OrchSt)
    (ctx : Option String) (sessionId : String) (childDepth maxDepth maxDelegations : Nat) :
    OrchSt → List Delegation → Except String (List AgentResult) × OrchSt
  | st, [] => (Except.ok [], st)
  | st, d :: ds =>
    match childRun st (childRequest d ctx sessionId childDepth maxDepth maxDelegations) with
    | (Except.error e, st1) => (Except.error e, st1)
    | (Except.ok child, st1) =>
      match runListWith childRun ctx sessionId childDepth maxDepth maxDelegations st1 ds with
      | (Except.error e, st2) => (Except.error e, st2)
      | (Except.ok rest, st2) => (Except.ok (child :: rest), st2)

/-- Models the raw-answer selection of `run` with no registry attached:
the `forceToolUseNoTools` branch synthesizes a canned answer without a
backend call; otherwise the backend (oracle) is called once. -/
def obtainRaw (llm : Nat → String) (forceToolUse : Bool) (st : OrchSt) : String × OrchSt :=
  if forceToolUse then (toolNotReadyRaw, st)
  else (llm st.llmCalls, { st with llmCalls := st.llmCalls + 1 })

/-- Models the `Parse with retry on validation failure` block of `run`
(with `shouldUseTools` false): on invalid parse, retry once; use the retry
response when it validates, else fall back to the first parse's data. -/
def parseWithRetry (llm : Nat → String) (st : OrchSt) (raw0 : String) :
    String × AgentResponse × OrchSt :=
  let pr := parseAgentResponse raw0
  if pr.valid then (raw0, pr.data, st)
  else
    match retryWithSchemaFix llm st with
    | (some retryResponse, st1) => (retryResponse, (parseAgentResponse retryResponse).data, st1)
    | (Option.none, st1) => (raw0, pr.data, st1)

/-- One level of `AgentOrchestrator.run` (orchestrator lines 388-608),
with the recursion into children abstracted as `childRun`. -/
def runStep (llm : Nat → String) (cfg : OrchConfig)
    (childRun : OrchSt → AgentRequest → Except String AgentResult × OrchSt)
    (st : OrchSt) (req : AgentRequest) : Except String AgentResult × OrchSt :=
  let depth := req.depth.getD 0
  let maxDepth := req.maxDepth.getD cfg.defaultMaxDepth
  let maxDelegations := req.maxDelegations.getD cfg.maxDelegationsPerAgent
  let sessionId := req.sessionId.getD "default"
  match checkAndIncrementAgentCount st sessionId cfg.maxAgentsPerSession with
  | Except.error e => (Except.error e, st)
  | Except.ok st1 =>
    let st2 := appendMemEntry st1 sessionId (requestEntry req.role req.objective)
    let allowDelegation := depth + 1 < maxDepth && !NON_DELEGATING_ROLES.contains req.role
    let rawSt := obtainRaw llm (testUseTools req.objective) st2
    let parsedSt := parseWithRetry llm rawSt.2 rawSt.1
    let raw := parsedSt.1
    let parsed := parsedSt.2.1
    let st4 := parsedSt.2.2
    let pd := prepareDelegations (parsed.delegations.getD []) depth maxDepth maxDelegations
      allowDelegation
    let delegations := pd.1
    let truncatedCount := pd.2
    let parsed2 :=
      if truncatedCount > 0 then
        { parsed with
          notes := some (parsed.notes.getD [] ++ [truncationNote truncatedCount maxDelegations]) }
      else parsed
    match runListWith childRun req.context sessionId (depth + 1) maxDepth maxDelegations st4
        delegations with
    | (Except.error e, st5) => (Except.error e, st5)
    | (Except.ok children, st5) =>
      let result := AgentResult.mk req.role parsed2.summary parsed2.rationale parsed2.notes
        parsed2.risks delegations children raw
      let st6 := appendMemEntry st5 sessionId (responseEntry parsed2.summary)
      (Except.ok result, st6)

/-- Models `AgentOrchestrator.run`, fuel-indexed: each recursion level
consumes one unit of fuel, so any fuel of at least `maxDepth` is enough
(delegation stops before `maxDepth`). -/
def run (llm : Nat → String) (cfg : OrchConfig) :
    Nat → OrchSt → AgentRequest → Except String AgentResult × OrchSt
  | 0 => fun st _ => (Except.error "model fuel exhausted", st)
  | fuel + 1 => fun st req => runStep llm cfg (run llm cfg fuel) st req

/-- Models the exposed `session_clear` tool handler: normalize the id,
delete the session file, reset the session's agent counter. -/
def sessionClearOp (st : OrchSt) (sessionId : String) : OrchSt :=
  resetSessionAgentCount (clearMem st (normalizeSessionId sessionId)) (normalizeSessionId sessionId)

/-- Models the exposed `session_log` read (entries part). -/
def sessionReadOp (st : OrchSt) (sessionId : String) : List Entry :=
  readMem st (normalizeSessionId sessionId)

/-! ## Agentic executor (src/agents/agenticExecutor.ts)

The bounded iterate-call-observe loop.  The LLM backend is an oracle from
call index to completion result (prompt shaping, tool schemas and the
`toolChoice` computation only influence the oracle's input and are
absorbed by it); tool execution through the registry is an oracle from
tool name and parsed arguments to a serialized result or an error
message (`toJsonSafe` of the result is absorbed into the oracle's output;
`resolveToolName` is modelled as the identity on the requested name). -/

inductive RespFormat where
  | text
  | json
deriving DecidableEq

structure ToolCallReq where
  id : String
  name : String
  arguments : String

structure CompletionRes where
  content : Option String
  toolCalls : List ToolCallReq
  finishReason : Option String

structure HistEntry where
  tool : String
  result : String
  error : Option String

structure ExecutionResult where
  finalContent : String
  toolCallHistory : List HistEntry
  iterations : Nat

/-- Models `truncateText`. -/
def truncateText (value : String) (limit : Nat := 1500) : String :=
  if value.length ≤ limit then value
  else
    let cut := value.length - limit
    (String.mk (value.toList.take limit)) ++ s!"... [truncated {cut} chars]"

/-- Models one tool invocation of the loop body: parse the JSON arguments
(empty string meaning `\x7b\x7d`), execute through the registry, and turn
any failure into an error-string history entry instead of throwing.  The
JavaScript parse-error detail is modelled by a fixed message text. -/
def processCall (toolExec : String → Json → Except String String) (call : ToolCallReq) :
    HistEntry :=
  let argsRaw := if call.arguments.isEmpty then "\x7b\x7d" else call.arguments
  match Json.parse argsRaw with
  | Option.none =>
    let msg := "Invalid JSON arguments: unexpected token"
    { tool := call.name, result := truncateText ("Error: " ++ msg), error := some msg }
  | some args =>
    match toolExec call.name args with
    | Except.ok text => { tool := call.name, result := truncateText text, error := Option.none }
    | Except.error e =>
      { tool := call.name, result := truncateText ("Error: " ++ e), error := some e }

/-- Models `retrySynthesis`: one more backend call with tools disabled;
succeed only on non-blank string content. -/
def retrySynthesisModel (llm : Nat → CompletionRes) (idx : Nat) : Option String :=
  match (llm idx).content with
  | some s => if (jsTrim s).length > 0 then some s else Option.none
  | Option.none => Option.none

/-- Models `Array.prototype.slice(-n)`: the last `n` elements. -/
def lastN {α : Type} (n : Nat) (l : List α) : List α :=
  l.drop (l.length - n)

/-- The summary line of the fallback answer, by the four cases of
`buildFallbackContent`. -/
def fallbackSummary (history : List HistEntry) : String :=
  let successfulCalls := history.filter (fun e => e.error.isNone)
  let failedCalls := history.filter (fun e => e.error.isSome)
  if history.isEmpty then "Model returned empty response without using any tools."
  else if failedCalls.length == history.length then
    let n := failedCalls.length
    s!"All {n} tool call(s) failed. See errors below."
  else if successfulCalls.length > 0 then
    let n := successfulCalls.length
    s!"Executed {n} tool call(s) successfully but model did not synthesize results."
  else "Tool calls executed but the model returned no final answer."

/-- The notes of the fallback answer: the last three successful results
and the last two errors, or a placeholder when there are none. -/
def fallbackNotes (history : List HistEntry) : List String :=
  let successfulCalls := history.filter (fun e => e.error.isNone)
  let failedCalls := history.filter (fun e => e.error.isSome)
  let notes :=
    (lastN 3 successfulCalls).map (fun e => "Tool " ++ e.tool ++ " result: " ++ e.result) ++
      (lastN 2 failedCalls).map (fun e => "Tool " ++ e.tool ++ " ERROR: " ++ e.error.getD "")
  if notes.isEmpty then
    ["No tool results to report. Consider retrying with a more specific objective."]
  else notes

/-- Models `buildFallbackContent`: for the json format, a structured JSON
object summarizing tool-call successes/failures with the most recent few
tool results as notes and empty delegations (via `toJsonSafe`, i.e.
pretty `JSON.stringify`, which never fails on this value). -/
def buildFallbackContent (format : Option RespFormat) (history : List HistEntry) : String :=
  if format != some RespFormat.json then "No response content returned."
  else
    Json.render (Json.obj [("summary", Json.str (fallbackSummary history)),
      ("notes", Json.arr ((fallbackNotes history).map Json.str)),
      ("delegations", Json.arr [])])

/-- Models the common exit of `execute`: the last non-blank content if
any, else the synthesized fallback. -/
def finishWithFallback (format : Option RespFormat) (lastContent : String)
    (hist : List HistEntry) (iterations : Nat) : ExecutionResult :=
  let fallback := buildFallbackContent format hist
  { finalContent := if (jsTrim lastContent).length > 0 then lastContent else fallback
    toolCallHistory := hist
    iterations := iterations }

/-- Models the `for` loop of `AgenticExecutor.execute`, indexed by the
remaining iteration budget (`iterDone + remaining = maxIterations`). -/
def execGo (llm : Nat → CompletionRes) (toolExec : String → Json → Except String String)
    (maxCalls : Nat) (format : Option RespFormat) :
    Nat → Nat → Nat → String → List HistEntry → ExecutionResult
  | 0, iterDone, llmIdx, lastContent, hist =>
    if (jsTrim lastContent).length == 0 && !hist.isEmpty then
      match retrySynthesisModel llm llmIdx with
      | some s => { finalContent := s, toolCallHistory := hist, iterations := iterDone }
      | Option.none => finishWithFallback format lastContent hist iterDone
    else finishWithFallback format lastContent hist iterDone
  | remaining + 1, iterDone, llmIdx, lastContent, hist =>
    let res := llm llmIdx
    let lastContent2 :=
      match res.content with
      | some s => s
      | Option.none => lastContent
    if res.finishReason == some "stop" || res.toolCalls.isEmpty then
      if (jsTrim lastContent2).length == 0 && !hist.isEmpty then
        match retrySynthesisModel llm (llmIdx + 1) with
        | some s => { finalContent := s, toolCallHistory := hist, iterations := iterDone + 1 }
        | Option.none => finishWithFallback format lastContent2 hist (iterDone + 1)
      else finishWithFallback format lastContent2 hist (iterDone + 1)
    else
      execGo llm toolExec maxCalls format remaining (iterDone + 1) (llmIdx + 1) lastContent2
        (hist ++ (res.toolCalls.take maxCalls).map (processCall toolExec))

/-- Models `AgenticExecutor.execute` (with `maxIterations` and
`maxToolCallsPerIteration` as configured). -/
def executeModel (llm : Nat → CompletionRes) (toolExec : String → Json → Except String String)
    (maxIterations maxCalls : Nat) (format : Option RespFormat) : ExecutionResult :=
  execGo llm toolExec maxCalls format maxIterations 0 0 "" []

/-! ## Concrete instances used by individual claims -/

/-- A discovered tool with no MCP hints whose short name matches the
admin pattern `*:delete_*`. -/
def c1tool : RegisteredTool := { name := "srv:delete_all" }

/-- Overrides granting the research role an explicit allow pattern naming
`srv:delete_all`; no ceiling override, no deny patterns. -/
def c1ov : AccessOverrides :=
  { roleLevels := fun _ => Option.none
    allow := fun r => if r = AgentRole.research then ["srv:delete_all"] else []
    deny := fun _ => [] }

/-- Empty overrides (no role-level, allow, or deny overrides). -/
def emptyOverrides : AccessOverrides :=
  { roleLevels := fun _ => Option.none
    allow := fun _ => []
    deny := fun _ => [] }

/-- A read-tier tool on the code role's static pattern list. -/
def c1wTool : RegisteredTool := { name := "smart-io:read_file" }

/-- A fixed ISO-8601 timestamp (24 characters, the length
`new Date().toISOString()` always produces). -/
def c2iso : String := "2025-01-01T00:00:00.000Z"

/-- A plain session log entry with the fixed timestamp. -/
def c2entry (m : String) : Entry :=
  { role := "user", message := m, timestamp := c2iso, meta := Option.none }

/-- The truncation marker the eviction loop inserts in the failing run. -/
def c2marker : Entry := truncationMarker c2iso c2iso

/-- Fresh orchestrator state: no counters, no session files, no LLM calls
made yet. -/
def freshSt : OrchSt := { counts := fun _ => 0, files := fun _ => Option.none, llmCalls := 0 }

/-- The server's orchestrator configuration with all defaults
(`maxAgentsPerSession` 100, `AGENT_MAX_DEPTH` 3,
`AGENT_MAX_DELEGATIONS` 2). -/
def defaultCfg : OrchConfig :=
  { maxAgentsPerSession := 100, defaultMaxDepth := 3, maxDelegationsPerAgent := 2 }

/-- A backend oracle that always answers with a valid JSON response and no
delegations. -/
def noDelegLlm : Nat → String := fun _ => "\x7b\"summary\":\"ok\"\x7d"

/-- A state whose `default` session has already spawned 100 agents. -/
def c4stFull : OrchSt := { counts := fun _ => 100, files := fun _ => Option.none, llmCalls := 0 }

def c4req : AgentRequest := { role := AgentRole.planner, objective := "first task" }

/-- The Step Result produced by `noDelegLlm` for `c4req` from a fresh
state. -/
def c4expected : AgentResult :=
  AgentResult.mk AgentRole.planner "ok" Option.none Option.none Option.none [] []
    "\x7b\"summary\":\"ok\"\x7d"

def c5req : AgentRequest := { role := AgentRole.planner, objective := "single step" }

/-- The Step Result produced by `noDelegLlm` for `c5req` from a fresh
state. -/
def c5expected : AgentResult :=
  AgentResult.mk AgentRole.planner "ok" Option.none Option.none Option.none [] []
    "\x7b\"summary\":\"ok\"\x7d"

/-- A backend answer declaring two valid delegations. -/
def c6parentRaw : String :=
  "\x7b\"summary\":\"plan\",\"delegations\":[\x7b\"role\":\"code\",\"objective\":\"task a\"\x7d,\x7b\"role\":\"analysis\",\"objective\":\"task b\"\x7d]\x7d"

/-- Backend oracle for the C6 scenario: the first call declares two
delegations, every later call answers with no delegations. -/
def c6llm : Nat → String := fun i =>
  if i == 0 then c6parentRaw else "\x7b\"summary\":\"done\"\x7d"

/-- The C6 request: a planner step with `maxFanOut = 1`. -/
def c6req : AgentRequest :=
  { role := AgentRole.planner, objective := "Plan the work", maxDepth := some 3,
    maxDelegations := some 1 }

/-- The result tree of the C6 scenario: one child (the second delegation
was dropped) and one truncation note. -/
def c6expected : AgentResult :=
  AgentResult.mk AgentRole.planner "plan" Option.none (some [truncationNote 1 1]) Option.none
    [{ role := AgentRole.code, objective := "task a" }]
    [AgentResult.mk AgentRole.code "done" Option.none Option.none Option.none [] []
      "\x7b\"summary\":\"done\"\x7d"]
    c6parentRaw

def c7req : AgentRequest := { role := AgentRole.planner, objective := "Do the thing" }

/-- A backend oracle that never produces JSON. -/
def nonJsonLlm : Nat → String := fun _ => "hello world"

/-- A state with prior session data and a used-up agent counter, as left
behind by earlier runs. -/
def c9stBusy : OrchSt :=
  { counts := fun _ => 5, files := fun k => some [requestEntry AgentRole.planner ("old " ++ k)],
    llmCalls := 7 }

/-- A configuration whose agent ceiling (5) the busy state has already
reached. -/
def c9cfg : OrchConfig :=
  { maxAgentsPerSession := 5, defaultMaxDepth := 3, maxDelegationsPerAgent := 2 }

/-- A backend oracle for the executor that stops immediately with blank
content and no tool calls. -/
def c8llm : Nat → CompletionRes :=
  fun _ => { content := some "", toolCalls := [], finishReason := some "stop" }

/-- A tool-execution oracle that always succeeds. -/
def c8exec : String → Json → Except String String := fun _ _ => Except.ok "result"

end Subagents

namespace Subagents

/-! ## Theorems -/

theorem mem_upsertTool {t x : RegisteredTool} {m : List RegisteredTool}
    (h : t ∈ upsertTool m x) : t ∈ m ∨ t = x := by
  unfold upsertTool at h
  by_cases hc : m.any (fun u => u.name == x.name)
  · rw [if_pos hc] at h
    rcases List.mem_map.mp h with ⟨u, hu, he⟩
    by_cases hn : u.name == x.name
    · right
      rw [if_pos hn] at he
      exact he.symm
    · left
      rw [if_neg hn] at he
      exact he ▸ hu
  · rw [if_neg hc] at h
    rcases List.mem_append.mp h with h1 | h2
    · exact Or.inl h1
    · exact Or.inr (List.mem_singleton.mp h2)

theorem mem_foldl_upsert {t : RegisteredTool} (cond : RegisteredTool → Bool) :
    ∀ (l acc : List RegisteredTool),
      t ∈ l.foldl (fun m tool => if cond tool then upsertTool m tool else m) acc →
      t ∈ acc ∨ t ∈ l := by
  intro l
  induction l with
  | nil => intro acc h; exact Or.inl h
  | cons x xs ih =>
    intro acc h
    rcases ih _ h with h1 | h2
    · dsimp only at h1
      by_cases hc : cond x
      · rw [if_pos hc] at h1
        rcases mem_upsertTool h1 with ha | hb
        · exact Or.inl ha
        · exact Or.inr (hb ▸ List.mem_cons_self x xs)
      · rw [if_neg hc] at h1
        exact Or.inl h1
    · exact Or.inr (List.mem_cons_of_mem x h2)

/-- C1 counterexample: with an allow-pattern override naming
`srv:delete_all` for the research role (effective ceiling `read`),
`getToolsForRole` returns that tool even though its computed tier is
`admin`, so the claimed ceiling invariant is false as stated. -/
theorem spec_c1_counterexample :
    getToolsForRole [c1tool] ROLE_TOOL_ACCESS_LEVELS c1ov AgentRole.research = [c1tool] ∧
    getEffectiveAccessLevel ROLE_TOOL_ACCESS_LEVELS c1ov AgentRole.research = ToolAccessLevel.read ∧
    classifyToolAccess c1tool.name c1tool = ToolAccessLevel.admin ∧
    ¬ TOOL_ACCESS_LEVEL_ORDER (classifyToolAccess c1tool.name c1tool) ≤
        TOOL_ACCESS_LEVEL_ORDER
          (getEffectiveAccessLevel ROLE_TOOL_ACCESS_LEVELS c1ov AgentRole.research) := by
  refine ⟨rfl, rfl, rfl, by decide⟩

/-- C1 amended: the tier ceiling is enforced for the base pattern set, so
whenever a role has no allow-pattern override, every tool visible through
`getToolsForRole` has computed tier at most the role's effective ceiling;
tools unioned in by an allow-pattern override bypass the tier ceiling
(subject only to deny patterns), as the counterexample shows. -/
theorem spec_c1_theorem (tools : List RegisteredTool)
    (roleLevels : AgentRole → ToolAccessLevel) (ov : AccessOverrides) (role : AgentRole)
    (t : RegisteredTool) (hAllow : ov.allow role = [])
    (ht : t ∈ getToolsForRole tools roleLevels ov role) :
    TOOL_ACCESS_LEVEL_ORDER (classifyToolAccess t.name t) ≤
      TOOL_ACCESS_LEVEL_ORDER (getEffectiveAccessLevel roleLevels ov role) := by
  unfold getToolsForRole at ht
  by_cases hp : (ROLE_TOOL_PERMISSIONS role).isEmpty
  · simp only [hp, if_true] at ht
    exact absurd ht (List.not_mem_nil t)
  · simp only [hp, if_false, hAllow, List.isEmpty_nil, Bool.not_true, if_false] at ht
    rcases mem_foldl_upsert _ _ _ ht with h1 | h2
    · exact absurd h1 (List.not_mem_nil t)
    · rcases List.mem_filter.mp h2 with ⟨_, hcond⟩
      have := (Bool.and_eq_true _ _).mp hcond
      exact Nat.le_of_ble_eq_true (by simpa using this.2)

/-- C1 witness: the amended theorem applied to a concrete registry with no
allow override for the code role. -/
theorem spec_c1_witness :
    TOOL_ACCESS_LEVEL_ORDER (classifyToolAccess c1wTool.name c1wTool) ≤
      TOOL_ACCESS_LEVEL_ORDER
        (getEffectiveAccessLevel ROLE_TOOL_ACCESS_LEVELS emptyOverrides AgentRole.code) :=
  spec_c1_theorem [c1wTool] ROLE_TOOL_ACCESS_LEVELS emptyOverrides AgentRole.code c1wTool rfl
    (by decide)

theorem c2_state1_fixpoint :
    truncateStep c2iso [c2marker, c2entry "m2", c2entry "m3"] =
      [c2marker, c2entry "m2", c2entry "m3"] := by
  decide

theorem c2_loop_state1_diverges :
    ∀ fuel, truncateLoop 200 c2iso fuel [c2marker, c2entry "m2", c2entry "m3"] = Option.none := by
  intro fuel
  induction fuel with
  | zero =>
    unfold truncateLoop
    rw [if_pos (by decide)]
  | succ n ih =>
    unfold truncateLoop
    rw [if_pos (by decide), c2_state1_fixpoint]
    exact ih

/-- C2: the eviction loop of `append` never reaches its exit condition on
this input.  With a 200-byte ceiling and a stored log of two entries
(190 bytes, under the ceiling), appending a third entry (284 bytes total)
enters the loop; the first iteration replaces the oldest entry with a
truncation marker (414 bytes), and every following iteration shifts that
marker and unshifts an identical one, so the state never changes again and
the source `while` loop runs forever.  The claimed behavior (terminate
under the ceiling or with a single entry) is the documented intent; the
code checks the head entry after shifting instead of the shifted entry,
which makes the marker itself the eviction victim. -/
theorem spec_c2_theorem :
    ∀ fuel,
      appendWithLimit 200 c2iso fuel [c2entry "m1", c2entry "m2"] (c2entry "m3") = Option.none ∧
      logSizeBytes [c2entry "m1", c2entry "m2"] ≤ 200 := by
  intro fuel
  refine ⟨?_, by decide⟩
  unfold appendWithLimit
  cases fuel with
  | zero =>
    unfold truncateLoop
    rw [if_pos (by decide)]
  | succ n =>
    unfold truncateLoop
    rw [if_pos (by decide)]
    have hstep :
        truncateStep c2iso ([c2entry "m1", c2entry "m2"] ++ [c2entry "m3"]) =
          [c2marker, c2entry "m2", c2entry "m3"] := by decide
    rw [hstep]
    exact c2_loop_state1_diverges n

/-- C3 counterexample: the session file content `\x7b\x7d` parses as JSON
but is not an array; `readInternal` returns the empty log without
preserving the file under a timestamped side-name, contradicting the
claim that both malformed and non-array payloads are preserved. -/
theorem spec_c3_counterexample :
    (readInternal (some "\x7b\x7d")).backedUp = false ∧
    (readInternal (some "\x7b\x7d")).entries = [] := by
  exact ⟨rfl, rfl⟩

/-- C3 amended: a read of malformed (unparseable) content returns the
empty log and preserves the prior content under the timestamped
`.corrupted.<ts>` side-name; a read of content that parses to a non-array
value returns the empty log but performs no preservation (the file is
left in place to be overwritten by the next write). -/
theorem spec_c3_theorem (content : String) :
    (Json.parse content = Option.none →
      readInternal (some content) = { entries := [], backedUp := true }) ∧
    (∀ j, Json.parse content = some j → (∀ es, j ≠ Json.arr es) →
      readInternal (some content) = { entries := [], backedUp := false }) := by
  constructor
  · intro h
    simp only [readInternal, h]
  · intro j hj hne
    cases j with
    | arr es => exact absurd rfl (hne es)
    | null => simp only [readInternal, hj]
    | bool b => simp only [readInternal, hj]
    | num m e => simp only [readInternal, hj]
    | str s => simp only [readInternal, hj]
    | obj fs => simp only [readInternal, hj]

/-- C3 witness: the amended theorem applied at the concrete contents
`not json` (malformed) and `\x7b\x7d` (valid JSON, not an array). -/
theorem spec_c3_witness :
    readInternal (some "not json") = { entries := [], backedUp := true } ∧
    readInternal (some "\x7b\x7d") = { entries := [], backedUp := false } :=
  ⟨(spec_c3_theorem ("not json")).1 rfl,
   (spec_c3_theorem ("\x7b\x7d")).2 (Json.obj []) rfl (fun _ h => Json.noConfusion h)⟩

/-- C10 counterexample: the all-invalid input `/` normalizes to `_`, not
to `default`, refuting the claim's parenthetical that all-invalid input
maps to `default`. -/
theorem spec_c10_counterexample :
    normalizeSessionId "/" = "_" ∧ normalizeSessionId "/" ≠ "default" := by
  decide

theorem all_sessionSafe_map (l : List Char) :
    (l.map (fun c => if sessionSafeChar c then c else '_')).all sessionSafeChar = true := by
  induction l with
  | nil => rfl
  | cons c cs ih =>
    simp only [List.map_cons, List.all_cons, Bool.and_eq_true]
    refine ⟨?_, ih⟩
    by_cases h : sessionSafeChar c
    · rw [if_pos h]; exact h
    · rw [if_neg h]; decide

/-- C10 amended: the normalized session id is always non-empty and
consists only of characters in `[a-zA-Z0-9_-]`, and the session file path
is `baseDir/<name>.json` for that name (so the store stays inside its base
directory); empty or whitespace-only input maps to `default`, while other
invalid characters are each replaced by `_` (so an all-invalid input such
as `/` maps to a string of underscores, not to `default`). -/
theorem spec_c10_theorem (baseDir s : String) :
    normalizeSessionId s ≠ "" ∧
    (normalizeSessionId s).toList.all sessionSafeChar = true ∧
    sessionPath baseDir s = baseDir ++ "/" ++ normalizeSessionId s ++ ".json" ∧
    (jsTrim s = "" → normalizeSessionId s = "default") := by
  refine ⟨?_, ?_, rfl, ?_⟩
  · unfold normalizeSessionId
    by_cases h :
        (String.mk ((jsTrim s).toList.map (fun c => if sessionSafeChar c then c else '_'))).length > 0
    · rw [if_pos h]
      intro he
      rw [he] at h
      exact absurd h (by decide)
    · rw [if_neg h]
      decide
  · unfold normalizeSessionId
    by_cases h :
        (String.mk ((jsTrim s).toList.map (fun c => if sessionSafeChar c then c else '_'))).length > 0
    · rw [if_pos h]
      exact all_sessionSafe_map (jsTrim s).toList
    · rw [if_neg h]
      decide
  · intro h
    unfold normalizeSessionId
    rw [h]
    decide

/-- C10 witness: the amended theorem applied at whitespace-only input. -/
theorem spec_c10_witness :
    normalizeSessionId "   " ≠ "" ∧ normalizeSessionId "   " = "default" :=
  ⟨(spec_c10_theorem ("data/sessions") ("   ")).1,
   (spec_c10_theorem ("data/sessions") ("   ")).2.2.2 (by decide)⟩

theorem countOf_appendMemEntry (st : OrchSt) (sid : String) (e : Entry) (k : String) :
    countOf (appendMemEntry st sid e) k = countOf st k := rfl

theorem countOf_obtainRaw (llm : Nat → String) (f : Bool) (st : OrchSt) (k : String) :
    countOf (obtainRaw llm f st).2 k = countOf st k := by
  unfold obtainRaw
  by_cases h : f
  · rw [if_pos h]
  · rw [if_neg h]
    rfl

theorem countOf_retry (llm : Nat → String) (st : OrchSt) (k : String) :
    countOf (retryWithSchemaFix llm st).2 k = countOf st k := by
  unfold retryWithSchemaFix
  dsimp only
  split <;> rfl

theorem countOf_parseWithRetry (llm : Nat → String) (st : OrchSt) (raw : String) (k : String) :
    countOf (parseWithRetry llm st raw).2.2 k = countOf st k := by
  unfold parseWithRetry
  dsimp only
  by_cases hv : (parseAgentResponse raw).valid
  · rw [if_pos hv]
  · rw [if_neg hv]
    rcases hr : retryWithSchemaFix llm st with ⟨o, st1⟩
    have h1 : countOf st1 k = countOf st k := by
      have h2 := countOf_retry llm st k
      rw [hr] at h2
      exact h2
    cases o <;> simpa using h1

theorem countOf_setCount (st : OrchSt) (sid : String) (n : Nat) (k : String) :
    countOf (setCount st sid n) k = if k == sid then n else countOf st k := rfl

/-- Count evolution of the sequential child loop, assuming it of the
child-runner: counters stay below `max (initial, cap)` and a successful
list accounts count increase = number of produced nodes. -/
theorem runList_counts (cap : Nat)
    (childRun : OrchSt → AgentRequest → Except String AgentResult × OrchSt)
    (ctx : Option String) (sid : String) (cd m md : Nat)
    (hchild : ∀ st req out st', childRun st req = (out, st') →
      (∀ k, countOf st' k ≤ max (countOf st k) cap) ∧
      (∀ r, out = Except.ok r →
        countOf st' (req.sessionId.getD "default") =
          countOf st (req.sessionId.getD "default") + countNodes r)) :
    ∀ ds st out st', runListWith childRun ctx sid cd m md st ds = (out, st') →
      (∀ k, countOf st' k ≤ max (countOf st k) cap) ∧
      (∀ rs, out = Except.ok rs → countOf st' sid = countOf st sid + countNodesList rs) := by
  intro ds
  induction ds with
  | nil =>
    intro st out st' h
    unfold runListWith at h
    cases h
    constructor
    · intro k; exact le_max_left _ _
    · intro rs hrs
      cases hrs
      simp [countNodesList]
  | cons d ds ih =>
    intro st out st' h
    unfold runListWith at h
    rcases hc : childRun st (childRequest d ctx sid cd m md) with ⟨cout, st1⟩
    rw [hc] at h
    rcases hchild st _ cout st1 hc with ⟨hb1, ha1⟩
    cases cout with
    | error e =>
      cases h
      exact ⟨hb1, fun rs hrs => by cases hrs⟩
    | ok child =>
      dsimp only at h
      rcases hl : runListWith childRun ctx sid cd m md st1 ds with ⟨lout, st2⟩
      rw [hl] at h
      rcases ih st1 lout st2 hl with ⟨hb2, ha2⟩
      cases lout with
      | error e =>
        cases h
        refine ⟨fun k => ?_, fun rs hrs => by cases hrs⟩
        have h3 := le_trans (hb2 k) (max_le_max (hb1 k) (le_refl cap))
        rwa [max_assoc, max_self] at h3
      | ok rest =>
        cases h
        constructor
        · intro k
          have h3 := le_trans (hb2 k) (max_le_max (hb1 k) (le_refl cap))
          rwa [max_assoc, max_self] at h3
        · intro rs hrs
          cases hrs
          have hc1 := ha1 child rfl
          have hc2 := ha2 rest rfl
          have hsid : (childRequest d ctx sid cd m md).sessionId.getD "default" = sid := rfl
          rw [hsid] at hc1
          rw [hc2, hc1, countNodesList]
          omega

/-- Count evolution of `run`: counters never exceed `max (initial, cap)`,
and a successful run increases the session's counter by exactly the
number of Step Results produced, starting from a counter strictly below
the ceiling. -/
theorem run_counts (llm : Nat → String) (cfg : OrchConfig) :
    ∀ fuel st req out st', run llm cfg fuel st req = (out, st') →
      (∀ k, countOf st' k ≤ max (countOf st k) cfg.maxAgentsPerSession) ∧
      (∀ r, out = Except.ok r →
        countOf st' (req.sessionId.getD "default") =
          countOf st (req.sessionId.getD "default") + countNodes r ∧
        countOf st (req.sessionId.getD "default") < cfg.maxAgentsPerSession) := by
  intro fuel
  induction fuel with
  | zero =>
    intro st req out st' h
    unfold run at h
    cases h
    exact ⟨fun k => le_max_left _ _, fun r hr => by cases hr⟩
  | succ fuel ih =>
    intro st req out st' h
    unfold run runStep at h
    dsimp only at h
    by_cases hq :
        countOf st (req.sessionId.getD "default") ≥ cfg.maxAgentsPerSession
    · have hce : checkAndIncrementAgentCount st (req.sessionId.getD "default")
          cfg.maxAgentsPerSession =
          Except.error (agentLimitMsg (req.sessionId.getD "default")
            (countOf st (req.sessionId.getD "default")) cfg.maxAgentsPerSession) := by
        unfold checkAndIncrementAgentCount
        rw [if_pos hq]
      rw [hce] at h
      cases h
      exact ⟨fun k => le_max_left _ _, fun r hr => by cases hr⟩
    · have hce : checkAndIncrementAgentCount st (req.sessionId.getD "default")
          cfg.maxAgentsPerSession =
          Except.ok (setCount st (req.sessionId.getD "default")
            (countOf st (req.sessionId.getD "default") + 1)) := by
        unfold checkAndIncrementAgentCount
        rw [if_neg hq]
      rw [hce] at h
      dsimp only at h
      have hchild : ∀ st req out st', run llm cfg fuel st req = (out, st') →
          (∀ k, countOf st' k ≤ max (countOf st k) cfg.maxAgentsPerSession) /\
          (∀ r, out = Except.ok r →
            countOf st' (req.sessionId.getD "default") =
              countOf st (req.sessionId.getD "default") + countNodes r) :=
        fun st req out st' hc =>
          ⟨(ih st req out st' hc).1, fun r hr => ((ih st req out st' hc).2 r hr).1⟩
      split at h
      case _ e st5 heq =>
        cases h
        rcases runList_counts cfg.maxAgentsPerSession (run llm cfg fuel) req.context
            (req.sessionId.getD "default") _ _ _ hchild _ _ _ _ heq with ⟨hb5, _⟩
        refine ⟨fun k => ?_, fun r hr => by cases hr⟩
        have h1 := hb5 k
        rw [countOf_parseWithRetry, countOf_obtainRaw, countOf_appendMemEntry,
          countOf_setCount] at h1
        by_cases hk : k == req.sessionId.getD "default"
        · rw [if_pos hk] at h1
          have hk2 : k = req.sessionId.getD "default" := by
            exact eq_of_beq hk
          have h2 : countOf st (req.sessionId.getD "default") + 1 ≤
              cfg.maxAgentsPerSession := by omega
          exact le_trans h1 (le_trans (max_le h2 (le_refl _)) (le_max_right _ _))
        · rw [if_neg hk] at h1
          exact h1
      case _ children st5 heq =>
        cases h
        rcases runList_counts cfg.maxAgentsPerSession (run llm cfg fuel) req.context
            (req.sessionId.getD "default") _ _ _ hchild _ _ _ _ heq with ⟨hb5, ha5⟩
        constructor
        · intro k
          rw [countOf_appendMemEntry]
          have h1 := hb5 k
          rw [countOf_parseWithRetry, countOf_obtainRaw, countOf_appendMemEntry,
            countOf_setCount] at h1
          by_cases hk : k == req.sessionId.getD "default"
          · rw [if_pos hk] at h1
            have h2 : countOf st (req.sessionId.getD "default") + 1 ≤
                cfg.maxAgentsPerSession := by omega
            exact le_trans h1 (le_trans (max_le h2 (le_refl _)) (le_max_right _ _))
          · rw [if_neg hk] at h1
            exact h1
        · intro r hr
          cases hr
          refine ⟨?_, by omega⟩
          rw [countOf_appendMemEntry]
          have h1 := ha5 children rfl
          rw [countOf_parseWithRetry, countOf_obtainRaw, countOf_appendMemEntry,
            countOf_setCount] at h1
          rw [h1, if_pos (beq_self_eq_true _), countNodes]
          omega

/-- C4: `run` throws the `Agent limit exceeded` error exactly when the
session's agent counter is at or above the ceiling at entry (leaving all
state unchanged), otherwise the entry step increments the counter by one;
consequently a successful run accounts one counter unit per Step Result
produced and the total number of Step Results ever produced for one
conversation never exceeds the ceiling (counters only move up, by exactly
the number of produced results). -/
theorem spec_c4_theorem (llm : Nat → String) (cfg : OrchConfig) (fuel : Nat) (st : OrchSt)
    (req : AgentRequest) :
    (countOf st (req.sessionId.getD "default") ≥ cfg.maxAgentsPerSession →
      checkAndIncrementAgentCount st (req.sessionId.getD "default") cfg.maxAgentsPerSession =
        Except.error (agentLimitMsg (req.sessionId.getD "default")
          (countOf st (req.sessionId.getD "default")) cfg.maxAgentsPerSession) ∧
      run llm cfg (fuel + 1) st req =
        (Except.error (agentLimitMsg (req.sessionId.getD "default")
          (countOf st (req.sessionId.getD "default")) cfg.maxAgentsPerSession), st)) ∧
    (countOf st (req.sessionId.getD "default") < cfg.maxAgentsPerSession →
      checkAndIncrementAgentCount st (req.sessionId.getD "default") cfg.maxAgentsPerSession =
        Except.ok (setCount st (req.sessionId.getD "default")
          (countOf st (req.sessionId.getD "default") + 1))) ∧
    (∀ r st', run llm cfg fuel st req = (Except.ok r, st') →
      countOf st' (req.sessionId.getD "default") =
        countOf st (req.sessionId.getD "default") + countNodes r ∧
      countOf st (req.sessionId.getD "default") + countNodes r ≤ cfg.maxAgentsPerSession) := by
  refine ⟨?_, ?_, ?_⟩
  · intro hq
    have hce : checkAndIncrementAgentCount st (req.sessionId.getD "default")
        cfg.maxAgentsPerSession =
        Except.error (agentLimitMsg (req.sessionId.getD "default")
          (countOf st (req.sessionId.getD "default")) cfg.maxAgentsPerSession) := by
      unfold checkAndIncrementAgentCount
      rw [if_pos hq]
    refine ⟨hce, ?_⟩
    unfold run runStep
    dsimp only
    rw [hce]
  · intro hq
    unfold checkAndIncrementAgentCount
    rw [if_neg (not_le.mpr hq)]
  · intro r st' h
    rcases run_counts llm cfg fuel st req _ _ h with ⟨hb, ha⟩
    rcases ha r rfl with ⟨heq, hlt⟩
    refine ⟨heq, ?_⟩
    have h1 := hb (req.sessionId.getD "default")
    rw [heq] at h1
    have h2 : max (countOf st (req.sessionId.getD "default")) cfg.maxAgentsPerSession =
        cfg.maxAgentsPerSession := max_eq_right (le_of_lt hlt)
    omega

/-- C4 witness: the theorem applied at concrete inputs — a session at the
100-agent ceiling (entry throws the quota error verbatim, state
unchanged) and a fresh session (one Step Result accounts one counter
unit, within the ceiling). -/
theorem spec_c4_witness :
    (run noDelegLlm defaultCfg 1 c4stFull c4req =
      (Except.error (agentLimitMsg "default" 100 100), c4stFull)) ∧
    (countOf (run noDelegLlm defaultCfg 1 freshSt c4req).2 "default" = 0 + countNodes c4expected) ∧
    (0 + countNodes c4expected ≤ 100) := by
  refine ⟨((spec_c4_theorem noDelegLlm defaultCfg 0 c4stFull c4req).1 (by decide)).2, ?_, ?_⟩
  · exact ((spec_c4_theorem noDelegLlm defaultCfg 1 freshSt c4req).2.2 c4expected _ rfl).1
  · exact ((spec_c4_theorem noDelegLlm defaultCfg 1 freshSt c4req).2.2 c4expected _ rfl).2

theorem prepareDelegations_stop (ds : List Delegation) (depth maxDepth md : Nat) (ad : Bool)
    (h : depth + 1 ≥ maxDepth) : (prepareDelegations ds depth maxDepth md ad).1 = [] := by
  unfold prepareDelegations
  rw [if_pos]
  rw [decide_eq_true h, Bool.or_true]

theorem mem_depthsOfList {d0 x : Nat} :
    ∀ {rs : List AgentResult}, x ∈ depthsOfList d0 rs ↔ ∃ r ∈ rs, x ∈ depthsOf d0 r := by
  intro rs
  induction rs with
  | nil => simp [depthsOfList]
  | cons r rs ih => simp [depthsOfList, List.mem_append, ih]

theorem runList_depths (llm : Nat → String) (cfg : OrchConfig) (fuel : Nat)
    (ihP : ∀ st req r st', run llm cfg fuel st req = (Except.ok r, st') →
      req.depth.getD 0 < req.maxDepth.getD cfg.defaultMaxDepth →
      ∀ x ∈ depthsOf (req.depth.getD 0) r, x < req.maxDepth.getD cfg.defaultMaxDepth) :
    ∀ (ds : List Delegation) (ctx : Option String) (sid : String) (cd m md : Nat) (st : OrchSt)
      (rs : List AgentResult) (st' : OrchSt),
      runListWith (run llm cfg fuel) ctx sid cd m md st ds = (Except.ok rs, st') →
      cd < m → ∀ r ∈ rs, ∀ x ∈ depthsOf cd r, x < m := by
  intro ds
  induction ds with
  | nil =>
    intro ctx sid cd m md st rs st' h hcd
    unfold runListWith at h
    cases h
    intro r hr
    exact absurd hr (List.not_mem_nil r)
  | cons d ds ih =>
    intro ctx sid cd m md st rs st' h hcd
    unfold runListWith at h
    rcases hc : run llm cfg fuel st (childRequest d ctx sid cd m md) with ⟨cout, st1⟩
    rw [hc] at h
    cases cout with
    | error e =>
      have h1 := congrArg Prod.fst h
      exact Except.noConfusion h1
    | ok child =>
      dsimp only at h
      rcases hl : runListWith (run llm cfg fuel) ctx sid cd m md st1 ds with ⟨lout, st2⟩
      rw [hl] at h
      cases lout with
      | error e =>
        have h1 := congrArg Prod.fst h
        exact Except.noConfusion h1
      | ok rest =>
        have h1 := congrArg Prod.fst h
        dsimp only at h1
        have h3 : child :: rest = rs := Except.ok.inj h1
        intro r hr
        rw [← h3] at hr
        rcases List.mem_cons.mp hr with hr1 | hr2
        · subst hr1
          exact ihP st _ r _ hc hcd
        · exact ih ctx sid cd m md st1 rest st2 hl hcd r hr2

/-- Depth soundness of `run`: starting below `maxDepth`, every node of
the result tree (each child running at depth one above its parent) stays
strictly below `maxDepth`. -/
theorem run_depths (llm : Nat → String) (cfg : OrchConfig) :
    ∀ (fuel : Nat) (st : OrchSt) (req : AgentRequest) (r : AgentResult) (st' : OrchSt),
      run llm cfg fuel st req = (Except.ok r, st') →
      req.depth.getD 0 < req.maxDepth.getD cfg.defaultMaxDepth →
      ∀ x ∈ depthsOf (req.depth.getD 0) r, x < req.maxDepth.getD cfg.defaultMaxDepth := by
  intro fuel
  induction fuel with
  | zero =>
    intro st req r st' h
    unfold run at h
    have h1 := congrArg Prod.fst h
    exact absurd h1 (fun hh => Except.noConfusion hh)
  | succ fuel ih =>
    intro st req r st' h hroot
    unfold run runStep at h
    dsimp only at h
    split at h
    · have h1 := congrArg Prod.fst h
      exact absurd h1 (fun hh => Except.noConfusion hh)
    · by_cases hdm : req.depth.getD 0 + 1 < req.maxDepth.getD cfg.defaultMaxDepth
      · split at h
        · have h1 := congrArg Prod.fst h
          exact absurd h1 (fun hh => Except.noConfusion hh)
        · rename_i children st5 heq
          cases h
          intro x hx
          rw [depthsOf] at hx
          rcases List.mem_cons.mp hx with hx1 | hx2
          · subst hx1
            exact hroot
          · rcases mem_depthsOfList.mp hx2 with ⟨child, hchild, hxc⟩
            exact runList_depths llm cfg fuel ih _ _ _ _ _ _ _ _ _ heq hdm child hchild x hxc
      · have hstop : ∀ (ds : List Delegation) (md : Nat) (ad : Bool),
            (prepareDelegations ds (req.depth.getD 0) (req.maxDepth.getD cfg.defaultMaxDepth)
              md ad).1 = [] :=
          fun ds md ad => prepareDelegations_stop ds _ _ md ad (by omega)
        rw [hstop] at h
        unfold runListWith at h
        dsimp only at h
        have h1 := congrArg Prod.fst h
        dsimp only at h1
        have h3 := Except.ok.inj h1
        subst h3
        intro x hx
        rw [depthsOf] at hx
        rcases List.mem_cons.mp hx with hx1 | hx2
        · subst hx1
          exact hroot
        · rw [depthsOfList] at hx2
          exact absurd hx2 (List.not_mem_nil x)

/-- C5: each child step runs at depth exactly one greater than its parent
(encoded by `depthsOf`, which mirrors the `depth: depth + 1` child
recursion), `prepareDelegations` returns the empty list once
`depth + 1 ≥ maxDepth`, and therefore, for any run whose root starts
below `maxDepth` (as every exposed entry point does: the MCP handlers
never pass a depth, and `maxDepth` is at least 1), no node of the result
tree has depth reaching `maxDepth`. -/
theorem spec_c5_theorem (llm : Nat → String) (cfg : OrchConfig) (fuel : Nat) (st : OrchSt)
    (req : AgentRequest) (r : AgentResult) (st' : OrchSt)
    (hrun : run llm cfg fuel st req = (Except.ok r, st'))
    (hroot : req.depth.getD 0 < req.maxDepth.getD cfg.defaultMaxDepth) :
    (∀ x ∈ depthsOf (req.depth.getD 0) r, x < req.maxDepth.getD cfg.defaultMaxDepth) ∧
    (∀ (ds : List Delegation) (depth maxDepth md : Nat) (ad : Bool), depth + 1 ≥ maxDepth →
      (prepareDelegations ds depth maxDepth md ad).1 = []) :=
  ⟨run_depths llm cfg fuel st req r st' hrun hroot,
   fun ds depth maxDepth md ad h => prepareDelegations_stop ds depth maxDepth md ad h⟩

/-- C5 witness: the theorem applied at a concrete single-step run (root
depth 0, default `maxDepth` 3). -/
theorem spec_c5_witness :
    (∀ x ∈ depthsOf 0 c5expected, x < 3) ∧
    (prepareDelegations [{ role := AgentRole.code, objective := "x" }] 2 3 2 true).1 = [] := by
  have h := spec_c5_theorem noDelegLlm defaultCfg 1 freshSt c5req c5expected
    (run noDelegLlm defaultCfg 1 freshSt c5req).2 rfl (by decide)
  exact ⟨h.1, h.2 _ 2 3 2 true (by decide)⟩

theorem prepareDelegations_length (ds : List Delegation) (depth maxDepth md : Nat) (ad : Bool) :
    (prepareDelegations ds depth maxDepth md ad).1.length ≤ md := by
  unfold prepareDelegations
  split
  · simp
  · exact List.length_take_le _ _

theorem fanOutOkList_iff (m : Nat) :
    ∀ (rs : List AgentResult), fanOutOkList m rs = true ↔ ∀ r ∈ rs, fanOutOk m r = true := by
  intro rs
  induction rs with
  | nil => simp [fanOutOkList]
  | cons r rs ih => simp [fanOutOkList, Bool.and_eq_true, ih]

theorem runList_fanout (llm : Nat → String) (cfg : OrchConfig) (fuel : Nat)
    (ihP : ∀ st req r st', run llm cfg fuel st req = (Except.ok r, st') →
      fanOutOk (req.maxDelegations.getD cfg.maxDelegationsPerAgent) r = true) :
    ∀ (ds : List Delegation) (ctx : Option String) (sid : String) (cd m md : Nat) (st : OrchSt)
      (rs : List AgentResult) (st' : OrchSt),
      runListWith (run llm cfg fuel) ctx sid cd m md st ds = (Except.ok rs, st') →
      rs.length = ds.length ∧ ∀ r ∈ rs, fanOutOk md r = true := by
  intro ds
  induction ds with
  | nil =>
    intro ctx sid cd m md st rs st' h
    unfold runListWith at h
    cases h
    exact ⟨rfl, fun r hr => absurd hr (List.not_mem_nil r)⟩
  | cons d ds ih =>
    intro ctx sid cd m md st rs st' h
    unfold runListWith at h
    rcases hc : run llm cfg fuel st (childRequest d ctx sid cd m md) with ⟨cout, st1⟩
    rw [hc] at h
    cases cout with
    | error e =>
      have h1 := congrArg Prod.fst h
      exact Except.noConfusion h1
    | ok child =>
      dsimp only at h
      rcases hl : runListWith (run llm cfg fuel) ctx sid cd m md st1 ds with ⟨lout, st2⟩
      rw [hl] at h
      cases lout with
      | error e =>
        have h1 := congrArg Prod.fst h
        exact Except.noConfusion h1
      | ok rest =>
        have h1 := congrArg Prod.fst h
        dsimp only at h1
        have h3 : child :: rest = rs := Except.ok.inj h1
        rcases ih ctx sid cd m md st1 rest st2 hl with ⟨hlen, hall⟩
        constructor
        · rw [← h3, List.length_cons, hlen, List.length_cons]
        · intro r hr
          rw [← h3] at hr
          rcases List.mem_cons.mp hr with hr1 | hr2
          · subst hr1
            exact ihP st _ r _ hc
          · exact hall r hr2

/-- Fan-out soundness of `run`: every node of a successful result tree
has at most `maxDelegations` children. -/
theorem run_fanout (llm : Nat → String) (cfg : OrchConfig) :
    ∀ (fuel : Nat) (st : OrchSt) (req : AgentRequest) (r : AgentResult) (st' : OrchSt),
      run llm cfg fuel st req = (Except.ok r, st') →
      fanOutOk (req.maxDelegations.getD cfg.maxDelegationsPerAgent) r = true := by
  intro fuel
  induction fuel with
  | zero =>
    intro st req r st' h
    unfold run at h
    have h1 := congrArg Prod.fst h
    exact absurd h1 (fun hh => Except.noConfusion hh)
  | succ fuel ih =>
    intro st req r st' h
    unfold run runStep at h
    dsimp only at h
    split at h
    · have h1 := congrArg Prod.fst h
      exact absurd h1 (fun hh => Except.noConfusion hh)
    · split at h
      · have h1 := congrArg Prod.fst h
        exact absurd h1 (fun hh => Except.noConfusion hh)
      · rename_i children st5 heq
        have h1 := congrArg Prod.fst h
        dsimp only at h1
        have h3 := Except.ok.inj h1
        subst h3
        rcases runList_fanout llm cfg fuel (fun st req r st' hc => ih st req r st' hc)
            _ _ _ _ _ _ _ _ _ heq with ⟨hlen, hall⟩
        rw [fanOutOk, Bool.and_eq_true]
        constructor
        · rw [hlen]
          exact decide_eq_true (prepareDelegations_length _ _ _ _ _)
        · exact (fanOutOkList_iff _ _).mpr hall

/-- C6: the honored-delegation list returned by `prepareDelegations` (and
hence every node's child list in a result tree) never exceeds the
configured max-fan-out; and in the concrete scenario where the backend
declares two valid delegations with `maxFanOut = 1`, the parent's Step
Result has exactly one child, one honored delegation, and exactly one
truncation note. -/
theorem spec_c6_theorem (llm : Nat → String) (cfg : OrchConfig) (fuel : Nat) (st : OrchSt)
    (req : AgentRequest) (r : AgentResult) (st' : OrchSt)
    (hrun : run llm cfg fuel st req = (Except.ok r, st')) :
    (∀ (ds : List Delegation) (depth maxDepth md : Nat) (ad : Bool),
      (prepareDelegations ds depth maxDepth md ad).1.length ≤ md) ∧
    fanOutOk (req.maxDelegations.getD cfg.maxDelegationsPerAgent) r = true ∧
    (run c6llm defaultCfg 3 freshSt c6req).1 = Except.ok c6expected ∧
    c6expected.children.length = 1 ∧
    c6expected.delegations.length = 1 ∧
    ((c6expected.notes.getD []).filter (fun n => n == truncationNote 1 1)).length = 1 := by
  refine ⟨fun ds depth maxDepth md ad => prepareDelegations_length ds depth maxDepth md ad,
    run_fanout llm cfg fuel st req r st' hrun, rfl, rfl, rfl, by decide⟩

/-- C6 witness: the theorem applied at the concrete two-delegation
scenario itself. -/
theorem spec_c6_witness :
    fanOutOk 1 c6expected = true ∧ c6expected.children.length = 1 ∧
    ((c6expected.notes.getD []).filter (fun n => n == truncationNote 1 1)).length = 1 := by
  have h := spec_c6_theorem c6llm defaultCfg 3 freshSt c6req c6expected
    (run c6llm defaultCfg 3 freshSt c6req).2 rfl
  exact ⟨h.2.1, h.2.2.2.1, h.2.2.2.2.2⟩

theorem llmCalls_appendMemEntry (st : OrchSt) (sid : String) (e : Entry) :
    (appendMemEntry st sid e).llmCalls = st.llmCalls := rfl

theorem llmCalls_setCount (st : OrchSt) (sid : String) (n : Nat) :
    (setCount st sid n).llmCalls = st.llmCalls := rfl

theorem obtainRaw_false (llm : Nat → String) (st : OrchSt) :
    obtainRaw llm false st = (llm st.llmCalls, { st with llmCalls := st.llmCalls + 1 }) := by
  unfold obtainRaw
  rw [if_neg (by simp)]

theorem prepareDelegations_nil (depth maxDepth md : Nat) (ad : Bool) :
    prepareDelegations [] depth maxDepth md ad = ([], 0) := by
  unfold prepareDelegations
  split
  · rfl
  · simp

/-- C7: when the backend's output is not parseable JSON and the single
reformatting retry also fails (blank or still invalid), `run` does not
throw on the parsing path: it returns a Step Result whose summary and raw
field are exactly the raw backend text, with empty delegations, no
children, and the single note flagging that the response was not valid
JSON. -/
theorem spec_c7_theorem (llm : Nat → String) (cfg : OrchConfig) (fuel : Nat) (st : OrchSt)
    (req : AgentRequest)
    (hquota : countOf st (req.sessionId.getD "default") < cfg.maxAgentsPerSession)
    (hforce : testUseTools req.objective = false)
    (hraw : Json.parse (llm st.llmCalls) = Option.none)
    (hretry : (decide ((jsTrim (llm (st.llmCalls + 1))).length > 0) &&
      (parseAgentResponse (llm (st.llmCalls + 1))).valid) = false) :
    (run llm cfg (fuel + 1) st req).1 =
      Except.ok (AgentResult.mk req.role (llm st.llmCalls) Option.none (some [invalidJsonNote])
        Option.none [] [] (llm st.llmCalls)) := by
  have hce : checkAndIncrementAgentCount st (req.sessionId.getD "default")
      cfg.maxAgentsPerSession =
      Except.ok (setCount st (req.sessionId.getD "default")
        (countOf st (req.sessionId.getD "default") + 1)) := by
    unfold checkAndIncrementAgentCount
    rw [if_neg (not_le.mpr hquota)]
  have hpr : parseAgentResponse (llm st.llmCalls) =
      { valid := false, data := invalidJsonFallback (llm st.llmCalls) } := by
    unfold parseAgentResponse
    rw [hraw]
  unfold run runStep
  dsimp only
  rw [hce]
  dsimp only
  rw [hforce, obtainRaw_false]
  dsimp only
  rw [llmCalls_appendMemEntry, llmCalls_setCount]
  unfold parseWithRetry
  dsimp only
  rw [hpr]
  dsimp only
  rw [if_neg (by simp)]
  unfold retryWithSchemaFix
  dsimp only
  rw [hretry]
  rw [if_neg (by simp)]
  dsimp only [invalidJsonFallback]
  rw [Option.getD_some, prepareDelegations_nil]
  dsimp only
  unfold runListWith
  dsimp only
  rfl

/-- C7 witness: the theorem applied at a backend that answers
`hello world` on every call. -/
theorem spec_c7_witness :
    (run nonJsonLlm defaultCfg 3 freshSt c7req).1 =
      Except.ok (AgentResult.mk AgentRole.planner "hello world" Option.none
        (some [invalidJsonNote]) Option.none [] [] "hello world") :=
  spec_c7_theorem nonJsonLlm defaultCfg 2 freshSt c7req (by decide) (by decide) rfl (by decide)

/-- C9: the exposed clear-session operation followed by read yields the
empty list, it resets the session's agent counter to zero, and a
subsequent run on that session (which would have thrown the quota error
whenever the old counter was at the ceiling) succeeds. -/
theorem spec_c9_theorem (st : OrchSt) (sessionId : String) (cfg : OrchConfig) (fuel : Nat)
    (hcap : 1 ≤ cfg.maxAgentsPerSession) :
    sessionReadOp (sessionClearOp st sessionId) sessionId = [] ∧
    countOf (sessionClearOp st sessionId) (normalizeSessionId sessionId) = 0 ∧
    (run noDelegLlm cfg (fuel + 1) (sessionClearOp st sessionId)
      { role := AgentRole.planner, objective := "continue",
        sessionId := some (normalizeSessionId sessionId) }).1.isOk = true := by
  have hcount : countOf (sessionClearOp st sessionId) (normalizeSessionId sessionId) = 0 := by
    unfold sessionClearOp resetSessionAgentCount countOf
    dsimp only
    rw [if_pos (beq_self_eq_true _)]
  refine ⟨?_, hcount, ?_⟩
  · unfold sessionReadOp readMem sessionClearOp resetSessionAgentCount clearMem
    dsimp only
    rw [if_pos (beq_self_eq_true _)]
    rfl
  · have hce : checkAndIncrementAgentCount (sessionClearOp st sessionId)
        (normalizeSessionId sessionId) cfg.maxAgentsPerSession =
        Except.ok (setCount (sessionClearOp st sessionId) (normalizeSessionId sessionId)
          (countOf (sessionClearOp st sessionId) (normalizeSessionId sessionId) + 1)) := by
      unfold checkAndIncrementAgentCount
      rw [if_neg (by omega)]
    unfold run runStep
    dsimp only [Option.getD]
    rw [hce]
    dsimp only
    have hforce : testUseTools "continue" = false := by decide
    rw [hforce, obtainRaw_false]
    dsimp only
    have hpr : parseAgentResponse (noDelegLlm 0) =
        { valid := true
          data := { summary := "ok", rationale := Option.none, notes := Option.none,
                    risks := Option.none, delegations := Option.none } } := by
      decide
    have hllm : ∀ n : Nat, noDelegLlm n = noDelegLlm 0 := fun _ => rfl
    unfold parseWithRetry
    dsimp only
    rw [hllm, hpr]
    dsimp only
    rw [if_pos rfl]
    dsimp only
    rw [prepareDelegations_nil]
    dsimp only
    unfold runListWith
    dsimp only
    rfl

/-- C9 witness: the theorem applied at a busy state whose counter is at a
small ceiling. -/
theorem spec_c9_witness :
    sessionReadOp (sessionClearOp c9stBusy "My Session!") "My Session!" = [] ∧
    countOf (sessionClearOp c9stBusy "My Session!") (normalizeSessionId "My Session!") = 0 ∧
    (run noDelegLlm c9cfg 1 (sessionClearOp c9stBusy "My Session!")
      { role := AgentRole.planner, objective := "continue",
        sessionId := some (normalizeSessionId "My Session!") }).1.isOk = true :=
  spec_c9_theorem c9stBusy ("My Session!") c9cfg 0 (by decide)

theorem ne_empty_of_jsTrim_pos {s : String} (h : (jsTrim s).length > 0) : s ≠ "" := by
  intro he
  subst he
  exact absurd h (by decide)

theorem retrySynthesis_ne_empty {llm : Nat → CompletionRes} {idx : Nat} {s : String}
    (h : retrySynthesisModel llm idx = some s) : s ≠ "" := by
  unfold retrySynthesisModel at h
  cases hc : (llm idx).content with
  | none =>
    rw [hc] at h
    cases h
  | some t =>
    rw [hc] at h
    dsimp only at h
    by_cases ht : (jsTrim t).length > 0
    · rw [if_pos ht] at h
      cases h
      exact ne_empty_of_jsTrim_pos ht
    · rw [if_neg ht] at h
      cases h

theorem render_obj_ne_empty (ind : Nat) (f : String × Json) (fs : List (String × Json)) :
    render ind (Json.obj (f :: fs)) ≠ "" := by
  show "\x7b\n" ++ String.intercalate ",\n" (renderObjItems (ind + 2) (f :: fs)) ++ "\n" ++
    spaces ind ++ "\x7d" ≠ ""
  intro hc
  have h1 := congrArg String.length hc
  rw [String.length_append, String.length_append, String.length_append,
    String.length_append] at h1
  have e1 : ("\x7b\n" : String).length = 2 := rfl
  have e3 : ("\x7d" : String).length = 1 := rfl
  have e4 : ("" : String).length = 0 := rfl
  rw [e1, e3, e4] at h1
  omega

theorem buildFallbackContent_ne_empty (format : Option RespFormat) (hist : List HistEntry) :
    buildFallbackContent format hist ≠ "" := by
  unfold buildFallbackContent
  split
  · decide
  · exact render_obj_ne_empty 0 _ _

theorem finishWithFallback_iterations (format : Option RespFormat) (lastContent : String)
    (hist : List HistEntry) (iters : Nat) :
    (finishWithFallback format lastContent hist iters).iterations = iters := rfl

theorem finishWithFallback_ne_empty (format : Option RespFormat) (lastContent : String)
    (hist : List HistEntry) (iters : Nat) :
    (finishWithFallback format lastContent hist iters).finalContent ≠ "" := by
  unfold finishWithFallback
  dsimp only
  split
  · exact ne_empty_of_jsTrim_pos (by assumption)
  · exact buildFallbackContent_ne_empty format hist

/-- Loop invariant of the tool-use loop: at most `iterDone + remaining`
iterations are reported and the final content is never the empty
string. -/
theorem execGo_spec (llm : Nat → CompletionRes) (toolExec : String → Json → Except String String)
    (maxCalls : Nat) (format : Option RespFormat) :
    ∀ (remaining iterDone llmIdx : Nat) (lastContent : String) (hist : List HistEntry),
      (execGo llm toolExec maxCalls format remaining iterDone llmIdx lastContent hist).iterations ≤
        iterDone + remaining ∧
      (execGo llm toolExec maxCalls format remaining iterDone llmIdx lastContent
        hist).finalContent ≠ "" := by
  intro remaining
  induction remaining with
  | zero =>
    intro iterDone llmIdx lastContent hist
    unfold execGo
    split
    · cases hs : retrySynthesisModel llm llmIdx with
      | some s =>
        dsimp only
        exact ⟨by omega, retrySynthesis_ne_empty hs⟩
      | none =>
        dsimp only
        refine ⟨?_, finishWithFallback_ne_empty _ _ _ _⟩
        rw [finishWithFallback_iterations]
        omega
    · refine ⟨?_, finishWithFallback_ne_empty _ _ _ _⟩
      rw [finishWithFallback_iterations]
      omega
  | succ remaining ih =>
    intro iterDone llmIdx lastContent hist
    unfold execGo
    dsimp only
    split
    · split
      · cases hs : retrySynthesisModel llm (llmIdx + 1) with
        | some s =>
          dsimp only
          exact ⟨by omega, retrySynthesis_ne_empty hs⟩
        | none =>
          dsimp only
          refine ⟨?_, finishWithFallback_ne_empty _ _ _ _⟩
          rw [finishWithFallback_iterations]
          omega
      · refine ⟨?_, finishWithFallback_ne_empty _ _ _ _⟩
        rw [finishWithFallback_iterations]
        omega
    · rcases ih (iterDone + 1) (llmIdx + 1)
        (match (llm llmIdx).content with | some s => s | Option.none => lastContent)
        (hist ++ ((llm llmIdx).toolCalls.take maxCalls).map (processCall toolExec)) with ⟨h1, h2⟩
      exact ⟨by omega, h2⟩

/-- C8: the tool-use loop performs at most `maxIterations` iterations and
exhausting the budget is not an error: `execute` returns normally
(modelled as a total function) with a final content that is never the
empty string — the last non-blank content, a synthesis retry answer, or
the structured fallback; and for the json response format the fallback is
always the JSON rendering of an object with a summary string, a notes
string array and empty delegations. -/
theorem spec_c8_theorem (llm : Nat → CompletionRes)
    (toolExec : String → Json → Except String String) (maxIterations maxCalls : Nat)
    (format : Option RespFormat) :
    (executeModel llm toolExec maxIterations maxCalls format).iterations ≤ maxIterations ∧
    (executeModel llm toolExec maxIterations maxCalls format).finalContent ≠ "" ∧
    (∀ h : List HistEntry, ∃ (s : String) (ns : List String),
      buildFallbackContent (some RespFormat.json) h =
      Json.render (Json.obj [("summary", Json.str s), ("notes", Json.arr (ns.map Json.str)),
        ("delegations", Json.arr [])])) ∧
    (∀ (fmt : Option RespFormat) (lastContent : String) (hist : List HistEntry) (iters : Nat),
      (jsTrim lastContent).length = 0 →
      (finishWithFallback fmt lastContent hist iters).finalContent =
        buildFallbackContent fmt hist) := by
  rcases execGo_spec llm toolExec maxCalls format maxIterations 0 0 "" [] with ⟨h1, h2⟩
  refine ⟨by simpa using h1, h2, ?_, ?_⟩
  · intro h
    unfold buildFallbackContent
    rw [if_neg (by decide)]
    exact ⟨fallbackSummary h, fallbackNotes h, rfl⟩
  · intro fmt lastContent hist iters hlc
    unfold finishWithFallback
    dsimp only
    rw [if_neg (by omega)]

/-- C8 witness: the theorem applied at a backend that stops immediately
with blank content, discharging the no-usable-content hypothesis at a
blank last content. -/
theorem spec_c8_witness :
    (executeModel c8llm c8exec 10 5 (some RespFormat.json)).iterations ≤ 10 ∧
    (finishWithFallback (some RespFormat.json) "" [] 10).finalContent =
      buildFallbackContent (some RespFormat.json) [] :=
  ⟨(spec_c8_theorem c8llm c8exec 10 5 (some RespFormat.json)).1,
   (spec_c8_theorem c8llm c8exec 10 5 (some RespFormat.json)).2.2.2 (some RespFormat.json) "" []
     10 rfl⟩

end Subagents
